import Mathlib

/-!
Verification development for the BPTree repository (composite-key `bptree2`
variant: packages `bpager`, `bnode` and the tree engine).

The development shallowly embeds the Go source at three levels:

* a byte level (`Buf`, the big- and little-endian integer writers that
  `encoding/binary` provides, the v2 meta page and the pager that manages
  the free list) — faithful to `pkg/bptree2/bpager/pager.go` and the
  `MetaPage` v2 codec;
* a node-codec level (`LeafNode`, `InternalNode`) — faithful to the
  composite leaf codec and the internal-node codec of package `bnode`,
  with pages represented as their decoded record contents (lists of
  entries plus the header count field);
* a tree-engine level (`BPTree.Insert`, `BPTree.Find`, `BPTree.Delete`,
  `BPTree.Count`) over a page store — faithful to the recursive
  insert/split, search and delete/rebalance algorithms of the engine.

`sort.Search count pred` from the Go standard library returns the least
index `i < count` with `pred i`, or `count` if none; the embedding uses a
linear first-hit scan, which computes the same least index.

Go's mutation of mmap-backed pages is modelled by explicit state passing;
the "refetch page after AllocatePage" discipline of the source becomes a
fresh store lookup.  Recursive descent over the page graph uses a fuel
parameter (the source recursion terminates because reachable pages form a
tree); the fuel passed by the public operations is `pageCount + 1`, an
upper bound on the height of any tree stored in that many pages.
-/

namespace BPTreeVerif

/-! ## Byte level: buffers and endian codecs -/

/-- A byte window into the mapped file: byte index to byte value. -/
def Buf : Type := Nat → Nat

/-- The all-zero page contents (a freshly truncated or cleared page). -/
def zeroBuf : Buf := fun _ => 0

/-- Big-endian byte `j` (0 = most significant) of the `uint64` value `x`. -/
def be64byte (x j : Nat) : Nat := (x % 2 ^ 64) / 2 ^ (8 * (7 - j)) % 256

/-- Little-endian byte `j` (0 = least significant) of the `uint64` value `x`. -/
def le64byte (x j : Nat) : Nat := (x % 2 ^ 64) / 2 ^ (8 * j) % 256

/-- `binary.BigEndian.PutUint64(buf[off:off+8], x)`: write the eight
big-endian bytes of `x` at offset `off`. -/
def putBE64 (buf : Buf) (off x : Nat) : Buf :=
  fun i => if off ≤ i ∧ i < off + 8 then be64byte x (i - off) else buf i

/-- `binary.LittleEndian.PutUint64(buf[off:off+8], x)`. -/
def putLE64 (buf : Buf) (off x : Nat) : Buf :=
  fun i => if off ≤ i ∧ i < off + 8 then le64byte x (i - off) else buf i

/-- `binary.BigEndian.Uint64(buf[off:off+8])`. -/
def getBE64 (buf : Buf) (off : Nat) : Nat :=
  buf off * 2 ^ 56 + buf (off + 1) * 2 ^ 48 + buf (off + 2) * 2 ^ 40 +
  buf (off + 3) * 2 ^ 32 + buf (off + 4) * 2 ^ 24 + buf (off + 5) * 2 ^ 16 +
  buf (off + 6) * 2 ^ 8 + buf (off + 7)

/-- `binary.BigEndian.Uint32(buf[off:off+4])`. -/
def getBE32 (buf : Buf) (off : Nat) : Nat :=
  buf off * 2 ^ 24 + buf (off + 1) * 2 ^ 16 + buf (off + 2) * 2 ^ 8 + buf (off + 3)

/-! ## Byte-order use sites (claim C4)

One definition per source line that encodes an integer into file bytes:
the v2 meta-page serializer (`MetaPage.Serialize`), the free-list next
pointer written by `Pager.FreePage`, the composite leaf codec's
`setKey1`, and the internal-node codec's `setKey`. -/

/-- `MetaPage.Serialize` (v2): `binary.BigEndian.PutUint64(buf[24:32], m.PageCount)`. -/
def metaWritePageCount (buf : Buf) (pageCount : Nat) : Buf :=
  putBE64 buf 24 pageCount

/-- `Pager.FreePage`: `binary.BigEndian.PutUint64(data[0:8], p.meta.FreeList)`. -/
def freeWriteNext (buf : Buf) (next : Nat) : Buf :=
  putBE64 buf 0 next

/-- Composite `LeafNode.setKey1`: entry `i` starts at byte `16 + 24*i`;
`binary.BigEndian.PutUint64(n.data[off:off+8], key1)`. -/
def leafWriteKey1 (buf : Buf) (i key1 : Nat) : Buf :=
  putBE64 buf (16 + 24 * i) key1

/-- `InternalNode.setKey`: key `i` lives at byte `16 + 255*8 + 8*i = 2056 + 8*i`;
`binary.LittleEndian.PutUint64(n.data[off:off+8], key)`. -/
def internalWriteKey (buf : Buf) (i key : Nat) : Buf :=
  putLE64 buf (2056 + 8 * i) key

/-- Claim C4 formalised: all integer-encoding sites of one file use one
single byte order; in particular the bytes an internal-node key write
lays down agree position-for-position with the bytes a leaf key write
lays down. -/
def singleByteOrderProp : Prop :=
  ∀ k j, j < 8 →
    internalWriteKey zeroBuf 0 k (2056 + j) = leafWriteKey1 zeroBuf 0 k (16 + j) ∧
    metaWritePageCount zeroBuf k (24 + j) = leafWriteKey1 zeroBuf 0 k (16 + j) ∧
    freeWriteNext zeroBuf k j = leafWriteKey1 zeroBuf 0 k (16 + j)

/-! ## Meta page (v2) and `loadOrInitMeta` (claim C8) -/

/-- File-format magic, `0x42505452` ("BPTR"). -/
def Magic : Nat := 0x42505452

/-- File-format version of the multi-root variant. -/
def Version : Nat := 2

/-- Maximum number of root trees (`MaxRoots`). -/
def MaxRoots : Nat := 500

/-- Root slot marker for "root exists but its tree is empty" (`^PageID(0)`). -/
def ReservedMarker : Nat := 2 ^ 64 - 1

/-- The v2 `MetaPage` record.  The root table is total on `Nat`; only
indices below `MaxRoots` are meaningful, matching the fixed-size Go array. -/
structure MetaPage where
  magic : Nat
  version : Nat
  rootCount : Nat
  pageCount : Nat
  freeList : Nat
  rootTable : Nat → Nat

/-- `MetaPage.Deserialize` (v2): big-endian fields at offsets 8, 12, 16,
24, 32, root table of 500 slots from offset 40. -/
def MetaPage.Deserialize (buf : Buf) : MetaPage where
  magic := getBE32 buf 8
  version := getBE32 buf 12
  rootCount := getBE64 buf 16
  pageCount := getBE64 buf 24
  freeList := getBE64 buf 32
  rootTable := fun i => if i < MaxRoots then getBE64 buf (40 + 8 * i) else 0

/-- Error text of `Pager.loadOrInitMeta` on a magic mismatch. -/
def badFormatMsg : String := "invalid file format: bad magic number"

/-- Error text of `Pager.loadOrInitMeta` on a version mismatch. -/
def unsupportedVersionMsg : String := "unsupported version"

/-- `Pager.loadOrInitMeta`: deserialize page 0; if the magic field is
zero, initialize the meta fields (the deserialized root table is kept
as-is); otherwise check magic and version. -/
def loadOrInitMeta (buf : Buf) : Except String MetaPage :=
  let m := MetaPage.Deserialize buf
  if m.magic = 0 then
    .ok { m with magic := Magic, version := Version, rootCount := 0,
                 pageCount := 1, freeList := 0 }
  else if m.magic ≠ Magic then
    .error badFormatMsg
  else if m.version ≠ Version then
    .error unsupportedVersionMsg
  else
    .ok m

/-- Claim C8 formalised: whenever the magic field of the file is zero,
`loadOrInitMeta` succeeds and every root slot of the resulting meta is
zero. -/
def c8AllSlotsZeroProp : Prop :=
  ∀ buf : Buf, getBE32 buf 8 = 0 →
    ∀ m, loadOrInitMeta buf = .ok m → ∀ i, i < MaxRoots → m.rootTable i = 0

/-- A meta page whose magic bytes are zero but whose first root-table
slot (bytes 40–47) holds the page ID 1. -/
def c8Buf : Buf := fun i => if i = 47 then 1 else 0

/-! ## Node codec constants

`HeaderSize = 16` and `UsableSize = 4080` are shared by both node kinds.
The concrete capacities of the composite `bnode` package: -/

/-- Modelled from the spec: the composite leaf capacity.  The `bnode`
constants file is not under `src/`; the spec fixes the composite leaf
capacity at 170 (24-byte records in 4080 usable bytes) and the leaf
codec's own comment says "For MaxLeafKeys=170". -/
def MaxLeafKeys : Nat := 170

/-- Modelled from the spec: the composite leaf minimum for non-root
leaves, 85 (the spec's "capacity 170; minimum 85"; the single-key
variant's constants file computes it as `MaxLeafKeys / 2`). -/
def MinLeafKeys : Nat := MaxLeafKeys / 2

/-- `MaxInternalKeys = 254` (internal-node codec layout comment:
255 children and 254 keys in a 4096-byte page). -/
def MaxInternalKeys : Nat := 254

/-- Modelled from the spec: `MinInternalKeys = MaxInternalKeys / 2 = 127`,
as in the single-key variant's constants file; the internal codec's
`IsUnderflow`/`CanLendTo` compare against it. -/
def MinInternalKeys : Nat := MaxInternalKeys / 2

/-! ## List helpers

Small index-based list editors mirroring the Go codec's shift loops: the
source makes room by shifting entries `idx..count` one slot right (or
closes a gap by shifting left), which on the decoded entry list is
insertion (or erasure) at an index. -/

/-- Insert `a` so that it ends up at index `n` (the Go "shift right from
`n`, then write at `n`" loop). -/
def insertAt {α : Type} : Nat → α → List α → List α
  | 0, a, l => a :: l
  | _ + 1, a, [] => [a]
  | n + 1, a, x :: l => x :: insertAt n a l

/-- Remove the element at index `n` (the Go "shift left onto `n`" loop). -/
def eraseAt {α : Type} : Nat → List α → List α
  | _, [] => []
  | 0, _ :: l => l
  | n + 1, x :: l => x :: eraseAt n l

/-- Overwrite the element at index `n`, if it exists. -/
def setAt {α : Type} : Nat → α → List α → List α
  | _, _, [] => []
  | 0, a, _ :: l => a :: l
  | n + 1, a, x :: l => x :: setAt n a l

/-! ## Composite leaf codec (`bnode.LeafNode`) -/

/-- One 24-byte leaf record `(key1, key2, value)`. -/
structure Entry where
  key1 : Nat
  key2 : Nat
  value : Nat
deriving DecidableEq, Repr

/-- A decoded composite leaf page: the header entry count, the entry
records in page order, and the next-leaf pointer. -/
structure LeafNode where
  count : Nat
  entries : List Entry
  nextLeaf : Nat
deriving DecidableEq, Repr

/-- `compareKeys`: lexicographic comparison of composite keys, returning
-1, 0 or 1 like the Go function. -/
def compareKeys (a1 a2 b1 b2 : Nat) : Int :=
  if a1 < b1 then -1
  else if a1 > b1 then 1
  else if a2 < b2 then -1
  else if a2 > b2 then 1
  else 0

/-- Linear computation of `sort.Search`'s least index `i` with
`compareKeys (entry i) (key1, key2) ≥ 0`, or the list length if none. -/
def searchEntries : List Entry → Nat → Nat → Nat
  | [], _, _ => 0
  | e :: rest, k1, k2 =>
    if compareKeys e.key1 e.key2 k1 k2 ≥ 0 then 0
    else searchEntries rest k1 k2 + 1

/-- `LeafNode.Search`: `(index, found)`; `found` iff the entry at the
insertion index carries exactly the searched composite key. -/
def LeafNode.Search (n : LeafNode) (k1 k2 : Nat) : Nat × Bool :=
  let idx := searchEntries n.entries k1 k2
  match n.entries.get? idx with
  | some e => (idx, e.key1 = k1 ∧ e.key2 = k2)
  | none => (idx, false)

/-- `LeafNode.Get`: the value stored under `(k1, k2)`, with a found flag;
`(0, false)` when absent. -/
def LeafNode.Get (n : LeafNode) (k1 k2 : Nat) : Nat × Bool :=
  let (idx, found) := n.Search k1 k2
  if found then (((n.entries.get? idx).map Entry.value).getD 0, true)
  else (0, false)

/-- `LeafNode.Put`: overwrite when the key exists (returns `false` for
"updated"), insert at the search index when below capacity (returns
`true` for "inserted"), and `none` for the full-leaf `panic` branch. -/
def LeafNode.Put (n : LeafNode) (k1 k2 v : Nat) : Option (LeafNode × Bool) :=
  let (idx, found) := n.Search k1 k2
  if found then
    some ({ n with entries := setAt idx ⟨k1, k2, v⟩ n.entries }, false)
  else if n.count ≥ MaxLeafKeys then
    none
  else
    some ({ n with entries := insertAt idx ⟨k1, k2, v⟩ n.entries,
                   count := n.count + 1 }, true)

/-- `LeafNode.Delete`: remove the composite key if present, compacting
the entry list; the flag reports whether a key was removed. -/
def LeafNode.Delete (n : LeafNode) (k1 k2 : Nat) : LeafNode × Bool :=
  let (idx, found) := n.Search k1 k2
  if found then
    ({ n with entries := eraseAt idx n.entries, count := n.count - 1 }, true)
  else (n, false)

/-- `LeafNode.IsFull`. -/
def LeafNode.IsFull (n : LeafNode) : Bool := n.count ≥ MaxLeafKeys

/-- `LeafNode.IsUnderflow`. -/
def LeafNode.IsUnderflow (n : LeafNode) : Bool := n.count < MinLeafKeys

/-- `LeafNode.CanLendTo`. -/
def LeafNode.CanLendTo (n : LeafNode) : Bool := n.count > MinLeafKeys

/-- `LeafNode.Split`: keep entries `[0, mid)` with `mid = count / 2`,
move entries `[mid, count)` to the new leaf (the copy loop
`for i := mid; i < count; i++`, which on the decoded list is
`take`/`drop` at `mid`), link the new leaf to the old next leaf, and
return the new leaf's first `key1` as separator. -/
def LeafNode.Split (n : LeafNode) : Nat × LeafNode × LeafNode :=
  let mid := n.count / 2
  let newEntries := n.entries.drop mid
  let left : LeafNode :=
    { count := mid, entries := n.entries.take mid, nextLeaf := n.nextLeaf }
  let right : LeafNode :=
    { count := n.count - mid, entries := newEntries, nextLeaf := n.nextLeaf }
  (((newEntries.head?).map Entry.key1).getD 0, left, right)

/-- `LeafNode.Range`: the entries with
`(start1,start2) ≤ (key1,key2) ≤ (end1,end2)`, scanning from the search
index for the start key and stopping at the first entry beyond the end
key (the loop's `break` on `compareKeys > 0`). -/
def LeafNode.Range (n : LeafNode) (start1 start2 end1 end2 : Nat) : List Entry :=
  let startIdx := searchEntries n.entries start1 start2
  (n.entries.drop startIdx).takeWhile
    (fun e => ¬ compareKeys e.key1 e.key2 end1 end2 = 1)

/-- `LeafNode.BorrowFromRight`: move the right sibling's first entry to
the end of `n`; returns `(n, right, new separator)` where the separator
is the right sibling's new first `key1`. -/
def LeafNode.BorrowFromRight (n right : LeafNode) : LeafNode × LeafNode × Nat :=
  match right.entries.head? with
  | none => (n, right, 0)
  | some e =>
    let n2 : LeafNode :=
      { n with entries := n.entries ++ [e], count := n.count + 1 }
    let (right2, _) := right.Delete e.key1 e.key2
    (n2, right2, ((right2.entries.head?).map Entry.key1).getD 0)

/-- `LeafNode.BorrowFromLeft`: move the left sibling's last entry to the
front of `n`; returns `(n, left, new separator)` where the separator is
`n`'s new first `key1`. -/
def LeafNode.BorrowFromLeft (n left : LeafNode) : LeafNode × LeafNode × Nat :=
  let e := (left.entries.getD (left.count - 1) ⟨0, 0, 0⟩)
  let n2 : LeafNode :=
    { n with entries := e :: n.entries, count := n.count + 1 }
  let left2 : LeafNode :=
    { left with entries := left.entries.take (left.count - 1),
                count := left.count - 1 }
  (n2, left2, e.key1)

/-- `LeafNode.MergeWith`: append the right sibling's entries and adopt
its next-leaf pointer. -/
def LeafNode.MergeWith (n right : LeafNode) : LeafNode :=
  { count := n.count + right.count,
    entries := n.entries ++ right.entries,
    nextLeaf := right.nextLeaf }

/-! ## Internal-node codec (`bnode.InternalNode`) -/

/-- A decoded internal page: the header key count, the separator keys in
page order and the child page IDs in page order. -/
structure InternalNode where
  count : Nat
  keys : List Nat
  children : List Nat
deriving DecidableEq, Repr

/-- Linear computation of `sort.Search`'s least index `i` with
`key i > k`, or the list length if none. -/
def firstGT : List Nat → Nat → Nat
  | [], _ => 0
  | x :: rest, k => if x > k then 0 else firstGT rest k + 1

/-- `InternalNode.GetKeyAt` (`getKey`). -/
def InternalNode.GetKeyAt (n : InternalNode) (i : Nat) : Nat :=
  n.keys.getD i 0

/-- `InternalNode.SetKeyAt` (`setKey`). -/
def InternalNode.SetKeyAt (n : InternalNode) (i k : Nat) : InternalNode :=
  { n with keys := setAt i k n.keys }

/-- `InternalNode.GetChild`. -/
def InternalNode.GetChild (n : InternalNode) (i : Nat) : Nat :=
  n.children.getD i 0

/-- `InternalNode.Search`: the child index to follow for `key` — the
first index whose separator is strictly greater than `key`, or `count`
if none. -/
def InternalNode.Search (n : InternalNode) (key : Nat) : Nat :=
  firstGT (n.keys.take n.count) key

/-- `InternalNode.GetChildForKey`. -/
def InternalNode.GetChildForKey (n : InternalNode) (key : Nat) : Nat :=
  n.GetChild (n.Search key)

/-- `InternalNode.IsFull`. -/
def InternalNode.IsFull (n : InternalNode) : Bool := n.count ≥ MaxInternalKeys

/-- `InternalNode.IsUnderflow`. -/
def InternalNode.IsUnderflow (n : InternalNode) : Bool := n.count < MinInternalKeys

/-- `InternalNode.CanLendTo`. -/
def InternalNode.CanLendTo (n : InternalNode) : Bool := n.count > MinInternalKeys

/-- `InternalNode.Insert`: insert a separator with its right child
(shifting keys from the search index and children from one past it);
`none` models the `return false` of a full node, which every caller
guards against with `IsFull`. -/
def InternalNode.Insert (n : InternalNode) (key rightChild : Nat) :
    Option InternalNode :=
  if n.count ≥ MaxInternalKeys then none
  else
    let idx := firstGT (n.keys.take n.count) key
    some { count := n.count + 1,
           keys := insertAt idx key n.keys,
           children := insertAt (idx + 1) rightChild n.children }

/-- `InternalNode.InitRoot`: one key and two children. -/
def InternalNode.InitRoot (leftChild rightChild key : Nat) : InternalNode :=
  { count := 1, keys := [key], children := [leftChild, rightChild] }

/-- `InternalNode.Split`: with `mid = count / 2`, the key at `mid` is
promoted; the copy loops move keys `mid+1 .. count-1` and children
`mid+1 .. count` to the new node (rendered index-by-index with `getD`,
exactly as the Go loops read them); the original keeps `mid` keys and
`mid+1` children. -/
def InternalNode.Split (n : InternalNode) : Nat × InternalNode × InternalNode :=
  let mid := n.count / 2
  let midKey := n.keys.getD mid 0
  let newKeyCount := n.count - mid - 1
  let newKeys := (List.range newKeyCount).map (fun i => n.keys.getD (mid + 1 + i) 0)
  let newChildren :=
    (List.range (newKeyCount + 1)).map (fun i => n.children.getD (mid + 1 + i) 0)
  let left : InternalNode :=
    { count := mid, keys := n.keys.take mid, children := n.children.take (mid + 1) }
  (midKey, left, { count := newKeyCount, keys := newKeys, children := newChildren })

/-- `InternalNode.DeleteKeyAt`: remove key `idx` and its right child. -/
def InternalNode.DeleteKeyAt (n : InternalNode) (idx : Nat) : InternalNode :=
  { count := n.count - 1,
    keys := eraseAt idx n.keys,
    children := eraseAt (idx + 1) n.children }

/-- `InternalNode.BorrowFromRight`: pull the parent separator down to the
end of `n`, adopt the right sibling's first child, and promote the right
sibling's first key; returns `(n, right, new separator)`. -/
def InternalNode.BorrowFromRight (n right : InternalNode) (parentKey : Nat) :
    InternalNode × InternalNode × Nat :=
  let n2 : InternalNode :=
    { count := n.count + 1,
      keys := n.keys ++ [parentKey],
      children := n.children ++ [right.children.getD 0 0] }
  let newParentKey := right.keys.getD 0 0
  let right2 : InternalNode :=
    { count := right.count - 1,
      keys := right.keys.drop 1,
      children := right.children.drop 1 }
  (n2, right2, newParentKey)

/-- `InternalNode.BorrowFromLeft`: push the parent separator onto the
front of `n`, adopt the left sibling's last child, and promote the left
sibling's last key; returns `(n, left, new separator)`. -/
def InternalNode.BorrowFromLeft (n left : InternalNode) (parentKey : Nat) :
    InternalNode × InternalNode × Nat :=
  let n2 : InternalNode :=
    { count := n.count + 1,
      keys := parentKey :: n.keys,
      children := left.children.getD left.count 0 :: n.children }
  let newParentKey := left.keys.getD (left.count - 1) 0
  let left2 : InternalNode :=
    { count := left.count - 1,
      keys := left.keys.take (left.count - 1),
      children := left.children.take left.count }
  (n2, left2, newParentKey)

/-- `InternalNode.MergeWith`: append the parent separator and the right
sibling's keys and children. -/
def InternalNode.MergeWith (n right : InternalNode) (parentKey : Nat) :
    InternalNode :=
  { count := n.count + 1 + right.count,
    keys := n.keys ++ parentKey :: right.keys,
    children := n.children ++ right.children }

/-! ## Page store

The mmapped file, viewed through the node codec: each allocated page ID
maps to its decoded contents.  A freed page holds its next-free pointer
in its first 8 bytes and is zero elsewhere; `freePage next` is that
byte pattern decoded (`freePage 0` is an all-zero, just-cleared page).
The store is a binary trie on the bits of the page ID so that concrete
executions stay cheap. -/

/-- A page as the node codec sees it. -/
inductive Page where
  | leaf : LeafNode → Page
  | internal : InternalNode → Page
  | freePage : Nat → Page
deriving DecidableEq, Repr

/-- Binary trie keyed by positive naturals (bit-by-bit navigation). -/
inductive PMap (α : Type) where
  | nil : PMap α
  | node : PMap α → Option α → PMap α → PMap α
deriving DecidableEq, Repr

/-- Lookup: key 1 is here, even keys descend left, odd keys > 1 descend
right, halving the key each step. -/
def PMap.find? {α : Type} : PMap α → Nat → Option α
  | .nil, _ => none
  | .node l v r, k =>
    if k = 1 then v
    else if k % 2 = 0 then l.find? (k / 2) else r.find? (k / 2)

/-- Insertion with explicit fuel (64 bits suffice for any page ID). -/
def PMap.insertF {α : Type} : Nat → PMap α → Nat → α → PMap α
  | 0, m, _, _ => m
  | fuel + 1, m, k, a =>
    match m with
    | .nil =>
      if k = 1 then .node .nil (some a) .nil
      else if k % 2 = 0 then .node (PMap.insertF fuel .nil (k / 2) a) none .nil
      else .node .nil none (PMap.insertF fuel .nil (k / 2) a)
    | .node l v r =>
      if k = 1 then .node l (some a) r
      else if k % 2 = 0 then .node (PMap.insertF fuel l (k / 2) a) v r
      else .node l v (PMap.insertF fuel r (k / 2) a)

/-- Insert with the standard 64 bits of fuel. -/
def PMap.ins {α : Type} (m : PMap α) (k : Nat) (a : α) : PMap α :=
  PMap.insertF 64 m k a

/-! ## Tree-engine state

The engine state: the decoded pages, plus the pager meta fields the tree
operations read and write (`PageCount`, `FreeList`, the root directory).
The mapped size is irrelevant at this level — growing the mapping
changes no page contents — and is omitted; the byte-exact pager model
below carries it. -/

/-- Engine state: decoded pages and the pager's meta fields. -/
structure TreeState where
  pages : PMap Page
  pageCount : Nat
  freeList : Nat
  rootTable : Nat → Nat
  rootCount : Nat

/-- The state of a freshly initialized file: page 0 is the meta page, no
free pages, no roots. -/
def freshState : TreeState where
  pages := .nil
  pageCount := 1
  freeList := 0
  rootTable := fun _ => 0
  rootCount := 0

/-- `Pager.AllocatePage` on decoded pages: pop the free-list head if any
(reading its next pointer and clearing the page), else hand out
`pageCount` and grow the count. -/
def allocPage (s : TreeState) : Nat × TreeState :=
  if s.freeList ≠ 0 then
    let id := s.freeList
    let next := match s.pages.find? id with
      | some (.freePage n) => n
      | _ => 0
    (id, { s with freeList := next, pages := s.pages.ins id (.freePage 0) })
  else
    (s.pageCount, { s with pageCount := s.pageCount + 1 })

/-- `Pager.FreePage` on decoded pages: clear the page, store the old
free-list head in it, point the free list at it. -/
def treeFreePage (s : TreeState) (id : Nat) : TreeState :=
  { s with pages := s.pages.ins id (.freePage s.freeList), freeList := id }

/-- `Pager.GetRootPage`: out-of-range root IDs read as 0, and the
reserved marker also reads as 0 (empty tree). -/
def getRootPage (s : TreeState) (rootID : Nat) : Nat :=
  let p := if rootID ≥ MaxRoots then 0 else s.rootTable rootID
  if p = ReservedMarker then 0 else p

/-- `Pager.SetRootPage`: fails (`none`) when `rootID ≥ MaxRoots`. -/
def setRootPageE (s : TreeState) (rootID pageID : Nat) : Option TreeState :=
  if rootID ≥ MaxRoots then none
  else some { s with rootTable := fun i => if i = rootID then pageID else s.rootTable i }

/-- `Pager.SetRootPage` with the error swallowed, as `BPTree.Delete`
calls it. -/
def setRootPageD (s : TreeState) (rootID pageID : Nat) : TreeState :=
  ((setRootPageE s rootID pageID).getD s)

/-- Scan for the first unused root slot. -/
def findFreeSlot : Nat → Nat → (Nat → Nat) → Option Nat
  | 0, _, _ => none
  | fuel + 1, i, t => if t i = 0 then some i else findFreeSlot fuel (i + 1) t

/-- `Pager.CreateRoot`: reserve the first slot holding 0. -/
def createRoot (s : TreeState) : Except String (Nat × TreeState) :=
  match findFreeSlot MaxRoots 0 s.rootTable with
  | some i =>
    .ok (i, { s with
      rootTable := fun j => if j = i then ReservedMarker else s.rootTable j,
      rootCount := s.rootCount + 1 })
  | none => .error "maximum roots reached"

/-- The `panic("leaf node is full")` in `LeafNode.Put`, surfaced as an
error value so that its unreachability can be stated. -/
def panicMsg : String := "leaf node is full"

/-- `Insert`'s error when `SetRootPage` rejects the root ID. -/
def invalidRootIDMsg : String := "invalid rootID"

/-- A fresh, empty leaf (`NewLeafNode(data, true)`). -/
def LeafNode.new : LeafNode := { count := 0, entries := [], nextLeaf := 0 }

/-! ## Insert (`BPTree.insert` / `insertLeaf` / `insertInternal`)

The recursion returns `(splitKey, newPageID, state)`; `newPageID = 0`
means "no split".  The source's post-allocation refetches become fresh
store lookups. -/

/-- The leaf step of the recursive insert (`BPTree.insertLeaf`). -/
def insertLeafStep (s : TreeState) (pageID : Nat) (l : LeafNode)
    (k1 k2 v : Nat) : Except String (Nat × Nat × TreeState) :=
  if ¬ l.IsFull then
    match l.Put k1 k2 v with
    | none => .error panicMsg
    | some (l2, _) =>
      .ok (0, 0, { s with pages := s.pages.ins pageID (.leaf l2) })
  else if (l.Get k1 k2).2 then
    match l.Put k1 k2 v with
    | none => .error panicMsg
    | some (l2, _) =>
      .ok (0, 0, { s with pages := s.pages.ins pageID (.leaf l2) })
  else
    let (newPageID, s1) := allocPage s
    match s1.pages.find? pageID with
    | some (.leaf lf) =>
      let (splitKey, lf2, newLeaf) := lf.Split
      let put :=
        if k1 < splitKey then
          match lf2.Put k1 k2 v with
          | none => none
          | some (lf3, _) => some (lf3, newLeaf)
        else
          match newLeaf.Put k1 k2 v with
          | none => none
          | some (nl2, _) => some (lf2, nl2)
      match put with
      | none => .error panicMsg
      | some (lf3, nl2) =>
        let nl3 := { nl2 with nextLeaf := lf3.nextLeaf }
        let lf4 := { lf3 with nextLeaf := newPageID }
        .ok (splitKey, newPageID,
          { s1 with pages := (s1.pages.ins pageID (.leaf lf4)).ins newPageID (.leaf nl3) })
    | _ => .error "failed to get page"

/-- The recursive insert (`BPTree.insert`, dispatching to the leaf step
or descending through an internal node as `insertInternal` does). -/
def insertRec : Nat → TreeState → Nat → Nat → Nat → Nat →
    Except String (Nat × Nat × TreeState)
  | 0, _, _, _, _, _ => .error "fuel exhausted"
  | fuel + 1, s, pageID, k1, k2, v =>
    match s.pages.find? pageID with
    | none => .error "failed to get page"
    | some (.freePage _) => .error "failed to get page"
    | some (.leaf l) => insertLeafStep s pageID l k1 k2 v
    | some (.internal n) =>
      let childID := n.GetChildForKey k1
      match insertRec fuel s childID k1 k2 v with
      | .error e => .error e
      | .ok (splitKey, newChildID, s1) =>
        if newChildID = 0 then .ok (0, 0, s1)
        else
          match s1.pages.find? pageID with
          | some (.internal n1) =>
            if ¬ n1.IsFull then
              let n2 := (n1.Insert splitKey newChildID).getD n1
              .ok (0, 0, { s1 with pages := s1.pages.ins pageID (.internal n2) })
            else
              let (newPageID, s2) := allocPage s1
              match s2.pages.find? pageID with
              | some (.internal n2) =>
                let (midKey, left, right) := n2.Split
                let (left2, right2) :=
                  if splitKey < midKey then
                    ((left.Insert splitKey newChildID).getD left, right)
                  else
                    (left, (right.Insert splitKey newChildID).getD right)
                let pages2 := (s2.pages.ins pageID (.internal left2)).ins newPageID (.internal right2)
                .ok (midKey, newPageID, { s2 with pages := pages2 })
              | _ => .error "failed to get page"
          | _ => .error "failed to get page"

/-- `BPTree.Insert`: create the first leaf on an empty tree, otherwise
recurse and, when a split bubbles out of the old root, install a new
internal root over the two halves. -/
def BPTree.Insert (s : TreeState) (rootID k1 k2 v : Nat) :
    Except String TreeState :=
  let rootPageID := getRootPage s rootID
  if rootPageID = 0 then
    let (newPageID, s1) := allocPage s
    match LeafNode.new.Put k1 k2 v with
    | none => .error panicMsg
    | some (l, _) =>
      let s2 := { s1 with pages := s1.pages.ins newPageID (.leaf l) }
      match setRootPageE s2 rootID newPageID with
      | some s3 => .ok s3
      | none => .error invalidRootIDMsg
  else
    match insertRec (s.pageCount + 1) s rootPageID k1 k2 v with
    | .error e => .error e
    | .ok (splitKey, newChildID, s1) =>
      if newChildID ≠ 0 then
        let (newRootID, s2) := allocPage s1
        let root := InternalNode.InitRoot rootPageID newChildID splitKey
        let s3 := { s2 with pages := s2.pages.ins newRootID (.internal root) }
        match setRootPageE s3 rootID newRootID with
        | some s4 => .ok s4
        | none => .error invalidRootIDMsg
      else .ok s1

/-! ## Find (`BPTree.Find` / `search`) -/

/-- The recursive point search (`BPTree.search`). -/
def searchRec : Nat → TreeState → Nat → Nat → Nat → Nat × Bool
  | 0, _, _, _, _ => (0, false)
  | fuel + 1, s, pageID, k1, k2 =>
    match s.pages.find? pageID with
    | some (.leaf l) => l.Get k1 k2
    | some (.internal n) => searchRec fuel s (n.GetChildForKey k1) k1 k2
    | _ => (0, false)

/-- `BPTree.Find`: `(0, false)` on an empty tree, else descend. -/
def BPTree.Find (s : TreeState) (rootID k1 k2 : Nat) : Nat × Bool :=
  let rootPageID := getRootPage s rootID
  if rootPageID = 0 then (0, false)
  else searchRec (s.pageCount + 1) s rootPageID k1 k2

/-! ## Delete (`BPTree.Delete` / `deleteRecursive` / `handleUnderflow`)

`handleUnderflow` is rendered as a chain of attempts mirroring the
source's early returns: borrow from the left sibling, borrow from the
right sibling, merge (preferring the left sibling).  Each attempt
returns the updated parent node and state.  Reads of pages that do not
hold the expected node kind fall through (such states are corrupt and
unreachable; the Go code would misinterpret the raw bytes there). -/

/-- Borrow-from-left attempt for a leaf child (`handleUnderflow`, first
block). -/
def tryBorrowLeftLeaf (s : TreeState) (parent : InternalNode)
    (childIdx childID : Nat) (child : LeafNode) :
    Option (InternalNode × TreeState) :=
  if childIdx > 0 then
    match s.pages.find? (parent.GetChild (childIdx - 1)) with
    | some (.leaf leftSib) =>
      if leftSib.CanLendTo then
        let (child2, leftSib2, newSep) := child.BorrowFromLeft leftSib
        let parent2 := parent.SetKeyAt (childIdx - 1) newSep
        let pages2 := (s.pages.ins childID (.leaf child2)).ins
          (parent.GetChild (childIdx - 1)) (.leaf leftSib2)
        some (parent2, { s with pages := pages2 })
      else none
    | _ => none
  else none

/-- Borrow-from-right attempt for a leaf child. -/
def tryBorrowRightLeaf (s : TreeState) (parent : InternalNode)
    (childIdx childID : Nat) (child : LeafNode) :
    Option (InternalNode × TreeState) :=
  if childIdx < parent.count then
    match s.pages.find? (parent.GetChild (childIdx + 1)) with
    | some (.leaf rightSib) =>
      if rightSib.CanLendTo then
        let (child2, rightSib2, newSep) := child.BorrowFromRight rightSib
        let parent2 := parent.SetKeyAt childIdx newSep
        let pages2 := (s.pages.ins childID (.leaf child2)).ins
          (parent.GetChild (childIdx + 1)) (.leaf rightSib2)
        some (parent2, { s with pages := pages2 })
      else none
    | _ => none
  else none

/-- Merge step for a leaf child: prefer the left sibling, else the
right; remove the separator above the merged pair and free the
right-hand page of the pair. -/
def mergeLeaf (s : TreeState) (parent : InternalNode)
    (childIdx childID : Nat) (child : LeafNode) : InternalNode × TreeState :=
  if childIdx > 0 then
    match s.pages.find? (parent.GetChild (childIdx - 1)) with
    | some (.leaf leftSib) =>
      let merged := leftSib.MergeWith child
      let parent2 := parent.DeleteKeyAt (childIdx - 1)
      let s2 := { s with pages := s.pages.ins (parent.GetChild (childIdx - 1)) (.leaf merged) }
      (parent2, treeFreePage s2 childID)
    | _ => (parent, s)
  else
    match s.pages.find? (parent.GetChild (childIdx + 1)) with
    | some (.leaf rightSib) =>
      let merged := child.MergeWith rightSib
      let parent2 := parent.DeleteKeyAt childIdx
      let s2 := { s with pages := s.pages.ins childID (.leaf merged) }
      (parent2, treeFreePage s2 (parent.GetChild (childIdx + 1)))
    | _ => (parent, s)

/-- Borrow-from-left attempt for an internal child. -/
def tryBorrowLeftInternal (s : TreeState) (parent : InternalNode)
    (childIdx childID : Nat) (child : InternalNode) :
    Option (InternalNode × TreeState) :=
  if childIdx > 0 then
    match s.pages.find? (parent.GetChild (childIdx - 1)) with
    | some (.internal leftSib) =>
      if leftSib.CanLendTo then
        let parentKey := parent.GetKeyAt (childIdx - 1)
        let (child2, leftSib2, newSep) := child.BorrowFromLeft leftSib parentKey
        let parent2 := parent.SetKeyAt (childIdx - 1) newSep
        let pages2 := (s.pages.ins childID (.internal child2)).ins
          (parent.GetChild (childIdx - 1)) (.internal leftSib2)
        some (parent2, { s with pages := pages2 })
      else none
    | _ => none
  else none

/-- Borrow-from-right attempt for an internal child. -/
def tryBorrowRightInternal (s : TreeState) (parent : InternalNode)
    (childIdx childID : Nat) (child : InternalNode) :
    Option (InternalNode × TreeState) :=
  if childIdx < parent.count then
    match s.pages.find? (parent.GetChild (childIdx + 1)) with
    | some (.internal rightSib) =>
      if rightSib.CanLendTo then
        let parentKey := parent.GetKeyAt childIdx
        let (child2, rightSib2, newSep) := child.BorrowFromRight rightSib parentKey
        let parent2 := parent.SetKeyAt childIdx newSep
        let pages2 := (s.pages.ins childID (.internal child2)).ins
          (parent.GetChild (childIdx + 1)) (.internal rightSib2)
        some (parent2, { s with pages := pages2 })
      else none
    | _ => none
  else none

/-- Merge step for an internal child, pulling the parent separator down
between the two halves. -/
def mergeInternal (s : TreeState) (parent : InternalNode)
    (childIdx childID : Nat) (child : InternalNode) : InternalNode × TreeState :=
  if childIdx > 0 then
    match s.pages.find? (parent.GetChild (childIdx - 1)) with
    | some (.internal leftSib) =>
      let parentKey := parent.GetKeyAt (childIdx - 1)
      let merged := leftSib.MergeWith child parentKey
      let parent2 := parent.DeleteKeyAt (childIdx - 1)
      let s2 := { s with pages := s.pages.ins (parent.GetChild (childIdx - 1)) (.internal merged) }
      (parent2, treeFreePage s2 childID)
    | _ => (parent, s)
  else
    match s.pages.find? (parent.GetChild (childIdx + 1)) with
    | some (.internal rightSib) =>
      let parentKey := parent.GetKeyAt childIdx
      let merged := child.MergeWith rightSib parentKey
      let parent2 := parent.DeleteKeyAt childIdx
      let s2 := { s with pages := s.pages.ins childID (.internal merged) }
      (parent2, treeFreePage s2 (parent.GetChild (childIdx + 1)))
    | _ => (parent, s)

/-- `BPTree.handleUnderflow`: dispatch on the child's node kind, then
try borrowing and fall back to merging. -/
def handleUnderflow (s : TreeState) (parent : InternalNode) (childIdx : Nat) :
    InternalNode × TreeState :=
  let childID := parent.GetChild childIdx
  match s.pages.find? childID with
  | some (.leaf child) =>
    match tryBorrowLeftLeaf s parent childIdx childID child with
    | some r => r
    | none =>
      match tryBorrowRightLeaf s parent childIdx childID child with
      | some r => r
      | none => mergeLeaf s parent childIdx childID child
  | some (.internal child) =>
    match tryBorrowLeftInternal s parent childIdx childID child with
    | some r => r
    | none =>
      match tryBorrowRightInternal s parent childIdx childID child with
      | some r => r
      | none => mergeInternal s parent childIdx childID child
  | _ => (parent, s)

/-- `BPTree.deleteRecursive`: returns `(deleted, underflow, state)`. -/
def deleteRec : Nat → TreeState → Nat → Nat → Nat → Bool × Bool × TreeState
  | 0, s, _, _, _ => (false, false, s)
  | fuel + 1, s, pageID, k1, k2 =>
    match s.pages.find? pageID with
    | some (.leaf l) =>
      let (l2, deleted) := l.Delete k1 k2
      if deleted then
        (true, l2.IsUnderflow, { s with pages := s.pages.ins pageID (.leaf l2) })
      else (false, false, s)
    | some (.internal n) =>
      let childIdx := n.Search k1
      let childID := n.GetChild childIdx
      let (deleted, childUnderflow, s1) := deleteRec fuel s childID k1 k2
      if ¬ deleted then (false, false, s1)
      else if ¬ childUnderflow then (true, false, s1)
      else
        let (n2, s2) := handleUnderflow s1 n childIdx
        (true, n2.IsUnderflow, { s2 with pages := s2.pages.ins pageID (.internal n2) })
    | _ => (false, false, s)

/-- `BPTree.Delete`: recursive delete, then shrink the root when it
emptied — an internal root with zero keys is replaced by its only child,
an empty leaf root empties the tree; either way the old root page is
freed. -/
def BPTree.Delete (s : TreeState) (rootID k1 k2 : Nat) : Bool × TreeState :=
  let rootPageID := getRootPage s rootID
  if rootPageID = 0 then (false, s)
  else
    let (deleted, _, s1) := deleteRec (s.pageCount + 1) s rootPageID k1 k2
    if deleted then
      match s1.pages.find? rootPageID with
      | some (.internal n) =>
        if n.count = 0 then
          let s2 := setRootPageD s1 rootID (n.GetChild 0)
          (true, treeFreePage s2 rootPageID)
        else (true, s1)
      | some (.leaf l) =>
        if l.count = 0 then
          let s2 := setRootPageD s1 rootID 0
          (true, treeFreePage s2 rootPageID)
        else (true, s1)
      | _ => (true, s1)
    else (false, s1)

/-! ## Count (`BPTree.Count` via `scanInternal`) -/

/-- `BPTree.findLeaf`: descend to the leaf that would hold `key1`. -/
def findLeafRec : Nat → TreeState → Nat → Nat → Nat
  | 0, _, _, _ => 0
  | fuel + 1, s, pageID, k1 =>
    match s.pages.find? pageID with
    | some (.leaf _) => pageID
    | some (.internal n) => findLeafRec fuel s (n.GetChildForKey k1) k1
    | _ => 0

/-- The leaf-chain walk of `scanInternal`, instantiated with `Count`'s
callback (which counts every pair and never stops early): add up the
in-range entries of each leaf, stopping after a leaf whose last entry
reaches the end key or when the chain ends. -/
def scanCountChain : Nat → TreeState → Nat → Nat → Nat → Nat → Nat → Nat → Nat
  | 0, _, _, _, _, _, _, acc => acc
  | fuel + 1, s, leafID, start1, start2, end1, end2, acc =>
    if leafID = 0 then acc
    else
      match s.pages.find? leafID with
      | some (.leaf l) =>
        let acc2 := acc + (l.Range start1 start2 end1 end2).length
        let last := l.entries.getD (l.count - 1) ⟨0, 0, 0⟩
        let stop :=
          l.count > 0 ∧ (last.key1 > end1 ∨ (last.key1 = end1 ∧ last.key2 ≥ end2))
        if stop then acc2
        else scanCountChain fuel s l.nextLeaf start1 start2 end1 end2 acc2
      | _ => acc

/-- `BPTree.Count`: a full scan over `[0, 2^64-1]` counting every
entry; 0 on an empty tree. -/
def BPTree.Count (s : TreeState) (rootID : Nat) : Nat :=
  let rootPageID := getRootPage s rootID
  if rootPageID = 0 then 0
  else
    let top := 2 ^ 64 - 1
    let leafID := findLeafRec (s.pageCount + 1) s rootPageID 0
    if leafID = 0 then 0
    else scanCountChain (s.pageCount + 1) s leafID 0 0 top top 0

/-! ## Byte-exact pager (`bpager.Pager`, claim C5)

This model keeps each page as its raw 4096-byte window so that the
free-list next pointers live literally in the first 8 bytes of freed
pages, and it carries the mapped size so that the growth loop of
`AllocatePage` is visible. -/

/-- `PageSize`. -/
def PageSize : Nat := 4096

/-- `InitialFileSize` (1 MiB). -/
def InitialFileSize : Nat := 1024 * 1024

/-- The byte-exact pager state: page contents, total page count, head of
the free list, and the size of the mapped region. -/
structure Pager where
  pages : Nat → Buf
  pageCount : Nat
  freeList : Nat
  mappedSize : Nat

/-- Pointwise update of the page array. -/
def updatePage (pages : Nat → Buf) (id : Nat) (b : Buf) : Nat → Buf :=
  fun i => if i = id then b else pages i

/-- The doubling loop of `AllocatePage`:
`for newSize < requiredSize { newSize *= GrowthFactor }`. -/
def growSize : Nat → Nat → Nat → Nat
  | 0, size, _ => size
  | fuel + 1, size, required =>
    if size < required then growSize fuel (size * 2) required else size

/-- `Pager.AllocatePage`: pop the free-list head if the list is
non-empty — reading the next pointer big-endian from the page's first 8
bytes, then clearing the page — else hand out `pageCount`, growing the
mapping by repeated doubling while `(id+1)*PageSize` exceeds it. -/
def Pager.AllocatePage (p : Pager) : Nat × Pager :=
  if p.freeList ≠ 0 then
    let id := p.freeList
    let next := getBE64 (p.pages id) 0
    (id, { p with freeList := next, pages := updatePage p.pages id zeroBuf })
  else
    let id := p.pageCount
    let required := (id + 1) * PageSize
    let size2 :=
      if required > p.mappedSize then
        growSize (required + 1) (p.mappedSize * 2) required
      else p.mappedSize
    (id, { p with pageCount := id + 1, mappedSize := size2 })

/-- `Pager.FreePage`: clear the page, write the current free-list head
big-endian into its first 8 bytes, and point the free list at it. -/
def Pager.FreePage (p : Pager) (id : Nat) : Pager :=
  { p with pages := updatePage p.pages id (putBE64 zeroBuf 0 p.freeList),
           freeList := id }

/-! ## Concrete executions

`runInserts` folds `BPTree.Insert` over a list of entries, as the tests
drive the engine. -/

/-- Apply `BPTree.Insert` for each entry in order, stopping at the first
error. -/
def runInserts : TreeState → Nat → List Entry → Except String TreeState
  | s, _, [] => .ok s
  | s, rootID, e :: rest =>
    match BPTree.Insert s rootID e.key1 e.key2 e.value with
    | .ok s2 => runInserts s2 rootID rest
    | .error er => .error er

/-- A fresh engine with one root created (`Open` on a new file followed
by `CreateRoot`, which returns root ID 0). -/
def openedState : TreeState :=
  match createRoot freshState with
  | .ok (_, s) => s
  | .error _ => freshState

/-- Claim C1's insertion sequence: the 171 pairwise-distinct composite
keys `(5, i)` for `i = 170, 169, …, 0`, with values `1000 + i`. -/
def c1Entries : List Entry :=
  (List.range 171).map (fun i => ⟨5, 170 - i, 1000 + (170 - i)⟩)

/-- The state after inserting `c1Entries` into root 0 of a fresh file. -/
def c1Run : Except String TreeState := runInserts openedState 0 c1Entries

/-- Claim C3's insertion sequence: 21761 distinct `key1` values in
descending order (`21761, 21760, …, 1`, each with `key2 = 0`), enough
for the root internal node to fill and split. -/
def c3Entries : List Entry :=
  (List.range 21761).map (fun i => ⟨21761 - i, 0, 0⟩)

/-- The state after inserting `c3Entries` into root 0 of a fresh file. -/
def c3Run : Except String TreeState := runInserts openedState 0 c3Entries

/-- The balance check of spec invariants 4 and 5: every non-root leaf
holds at least `MinLeafKeys` entries and every non-root internal node at
least `MinInternalKeys` keys (the root is exempt); missing pages fail
the check. -/
def balancedFrom : Nat → TreeState → Nat → Bool → Bool
  | 0, _, _, _ => false
  | fuel + 1, s, pageID, isRoot =>
    match s.pages.find? pageID with
    | some (.leaf l) => isRoot || decide (l.count ≥ MinLeafKeys)
    | some (.internal n) =>
      (isRoot || decide (n.count ≥ MinInternalKeys)) &&
        (List.range (n.count + 1)).all (fun i => balancedFrom fuel s (n.GetChild i) false)
    | _ => false

/-- Whole-tree balance for root 0: vacuously true for an empty tree. -/
def stateBalanced (s : TreeState) : Bool :=
  let r := getRootPage s 0
  r = 0 || balancedFrom (s.pageCount + 1) s r true

/-! ## The state reached just before claim C3's failing insert

Inserting the keys `21761, 21760, …, 2` (each `(key1, 0)` with value 0)
into root 0 of a fresh file — the first 21760 entries of `c3Entries` —
produces exactly the state below (checked by evaluating `runInserts`
against it component by component): the leftmost leaf, page 1, is full
with keys `2..171`; pages `256, 255, …, 4` hold 85 keys each,
`172+85*(256-p) .. 172+85*(256-p)+84`; page 2 holds `21677..21761`; and
the root, page 3, is a full internal node with the 254 separators
`172 + 85*j` over the 255 leaves.  The next insert, key 1, splits page 1
and then the full root, leaving the upper half of the root as a non-root
internal node with 126 keys. -/

/-- Page 1 before the failing insert: the full leftmost leaf. -/
def c3Leaf1 : LeafNode :=
  { count := 170, entries := (List.range 170).map (fun i => ⟨2 + i, 0, 0⟩), nextLeaf := 256 }

/-- Pages 4..256 before the failing insert: 85 keys each. -/
def c3MidLeaf (p : Nat) : LeafNode :=
  { count := 85,
    entries := (List.range 85).map (fun i => ⟨172 + 85 * (256 - p) + i, 0, 0⟩),
    nextLeaf := if p = 4 then 2 else p - 1 }

/-- Page 2 before the failing insert: the rightmost leaf. -/
def c3LastLeaf : LeafNode :=
  { count := 85, entries := (List.range 85).map (fun i => ⟨21677 + i, 0, 0⟩), nextLeaf := 0 }

/-- Page 3 before the failing insert: the full internal root. -/
def c3RootNode : InternalNode :=
  { count := 254,
    keys := (List.range 254).map (fun j => 172 + 85 * j),
    children := 1 :: ((List.range 253).map (fun j => 256 - j) ++ [2]) }

/-- The engine state reached after the first 21760 inserts of
`c3Entries`. -/
def c3PreState : TreeState :=
  { pages :=
      ((List.range 253).map (fun j => 4 + j)).foldl
        (fun m p => m.ins p (.leaf (c3MidLeaf p)))
        (((PMap.nil.ins 1 (.leaf c3Leaf1)).ins 2 (.leaf c3LastLeaf)).ins 3
          (.internal c3RootNode)),
    pageCount := 257, freeList := 0,
    rootTable := fun i => if i = 0 then 3 else 0, rootCount := 1 }

/-! ## Concrete fixtures for the remaining claims -/

/-- The meta-page bytes of a file whose magic field holds `1` (non-zero,
not `Magic`). -/
def c8BufBad : Buf := fun i => if i = 11 then 1 else 0

/-- The meta-page bytes of a file with the correct magic
(`0x42505452` big-endian at bytes 8–11) but version 1 instead of 2. -/
def c8BufVer : Buf := fun i =>
  if i = 8 then 0x42 else if i = 9 then 0x50 else if i = 10 then 0x54
  else if i = 11 then 0x52 else if i = 15 then 1 else 0

/-- The meta resulting from opening `c8Buf` (magic zero, slot 0 dirty). -/
def c8Meta : MetaPage :=
  { magic := Magic, version := Version, rootCount := 0, pageCount := 1,
    freeList := 0, rootTable := (MetaPage.Deserialize c8Buf).rootTable }

/-- The spec's descent rule for delete, as claim C2 words it: the least
index whose separator is greater than or equal to the key. -/
def firstGE : List Nat → Nat → Nat
  | [], _ => 0
  | x :: rest, k => if x ≥ k then 0 else firstGE rest k + 1

/-- Modelled from the spec's words (refinement comparison for claim C2):
"first separator ≥ k" descent semantics. -/
def InternalNode.searchSpecGe (n : InternalNode) (key : Nat) : Nat :=
  firstGE (n.keys.take n.count) key

/-- The internal node of the codec's own search test: separators
`[20, 40, 60]` over children `[10, 11, 12, 13]`. -/
def c2Node : InternalNode := { count := 3, keys := [20, 40, 60], children := [10, 11, 12, 13] }

/-- A ten-key internal node (children `100..110`, keys `10,20,…,100`),
as built by the codec's split test. -/
def c6Node : InternalNode :=
  { count := 10,
    keys := (List.range 10).map (fun i => (i + 1) * 10),
    children := (List.range 11).map (fun i => 100 + i) }

/-- A three-page tree for claim C7's internal-root case: leaves on pages
1 and 2 with one entry each, internal root on page 3 separating at 20. -/
def c7State : TreeState :=
  { pages := ((PMap.nil.ins 1 (.leaf { count := 1, entries := [⟨10, 0, 100⟩], nextLeaf := 2 })).ins
        2 (.leaf { count := 1, entries := [⟨20, 0, 200⟩], nextLeaf := 0 })).ins
        3 (.internal { count := 1, keys := [20], children := [1, 2] }),
    pageCount := 4, freeList := 0,
    rootTable := fun i => if i = 0 then 3 else 0, rootCount := 1 }

/-- A one-page tree for claim C7's leaf-root case: a root leaf with a
single entry on page 1. -/
def c7LeafState : TreeState :=
  { pages := PMap.nil.ins 1 (.leaf { count := 1, entries := [⟨7, 0, 70⟩], nextLeaf := 0 }),
    pageCount := 2, freeList := 0,
    rootTable := fun i => if i = 0 then 1 else 0, rootCount := 1 }

/-- Strict composite-key order on entries (`compareKeys = -1`). -/
def entLT (a b : Entry) : Prop :=
  compareKeys a.key1 a.key2 b.key1 b.key2 = -1

/-- A leaf's entries are in strictly ascending composite-key order. -/
def sortedEntries (es : List Entry) : Prop := List.Pairwise entLT es

/-- Every leaf page in a page store respects the leaf capacity. -/
def pagesLeafOK (m : PMap Page) : Prop :=
  ∀ pid l, m.find? pid = some (.leaf l) → l.count ≤ MaxLeafKeys

/-- The well-formedness the no-panic argument of claim C9 rests on:
every leaf page in the store respects the leaf capacity. -/
def stateLeafOK (s : TreeState) : Prop := pagesLeafOK s.pages

/-- A pager whose free list holds page 2, whose page 2 stores the next
free pointer 7 (big-endian) in its first 8 bytes. -/
def c5PagerPop : Pager :=
  { pages := fun i => if i = 2 then putBE64 zeroBuf 0 7 else zeroBuf,
    pageCount := 5, freeList := 2, mappedSize := InitialFileSize }

/-- A pager with an empty free list and a mapping of one page, forcing
the next allocation to grow the mapping. -/
def c5PagerGrow : Pager :=
  { pages := fun _ => zeroBuf, pageCount := 3, freeList := 0, mappedSize := PageSize }

/-! ## Theorems -/

set_option maxRecDepth 100000 in
/-- C1: the round-trip property fails on the code.  `c1Entries` is a
sequence of 171 pairwise-distinct composite keys inserted into a fresh
root; the key `(5, 1)` (inserted with value 1001) is afterwards not
found — `Find` returns `(0, false)`.  The split separator is only the
first `key1` of the new leaf, so keys equal to the separator that
remain in the left half become unreachable, because internal descent
routes a key equal to a separator to the right of that separator. -/
theorem claim_C1 :
    (⟨5, 1, 1001⟩ : Entry) ∈ c1Entries ∧
    c1Run.toOption.map (fun s => BPTree.Find s 0 5 1) = some (0, false) :=
  ⟨by decide, rfl⟩

set_option maxRecDepth 1000000 in
set_option maxHeartbeats 4000000 in
/-- C3: the balance invariant fails on the code.  `c3PreState` is the
state reached after inserting keys `21761, 21760, …, 2` into a fresh
root (the first 21760 entries of `c3Entries`); it is balanced, its root
is a full internal node, and the next insert of the sequence — key 1 —
splits the root, leaving its upper half as a non-root internal node
with 126 keys, below `MinInternalKeys = 127`. -/
theorem claim_C3 :
    stateBalanced c3PreState = true ∧
    (BPTree.Insert c3PreState 0 1 0 0).toOption.map stateBalanced = some false :=
  ⟨rfl, rfl⟩

/-- C4 counterexample: the file does not use a single byte order.  At
key `1`, the first byte an internal-node key write stores (little
endian: `1`) differs from the first byte a leaf key write stores (big
endian: `0`). -/
theorem claim_C4_counterexample : ¬ singleByteOrderProp :=
  fun h => absurd ((h 1 0 (by decide)).1) (by decide)

/-- C4 as amended: meta-page integers, free-list next pointers, and
leaf entry fields all use big-endian byte order, but internal-node keys
(and children) use little-endian — the two layouts are byte-reversals
of each other, so the file mixes the two orders rather than using one
throughout. -/
theorem claim_C4_amended : ∀ k j, j < 8 →
    metaWritePageCount zeroBuf k (24 + j) = leafWriteKey1 zeroBuf 0 k (16 + j) ∧
    freeWriteNext zeroBuf k j = leafWriteKey1 zeroBuf 0 k (16 + j) ∧
    internalWriteKey zeroBuf 0 k (2056 + j) = leafWriteKey1 zeroBuf 0 k (16 + (7 - j)) := by
  intro k j hj
  have h8 : 7 - (7 - j) = j := by omega
  refine ⟨?_, ?_, ?_⟩ <;>
    simp [metaWritePageCount, freeWriteNext, leafWriteKey1, internalWriteKey,
          putBE64, putLE64, be64byte, le64byte, h8, hj,
          show 24 + j < 32 by omega, show 16 + j < 24 by omega,
          show 2056 + j < 2064 by omega, show 16 + (7 - j) < 24 by omega]

/-- Witness for the amended C4 at `k = 1`, `j = 0`. -/
theorem claim_C4_witness :
    metaWritePageCount zeroBuf 1 (24 + 0) = leafWriteKey1 zeroBuf 0 1 (16 + 0) ∧
    freeWriteNext zeroBuf 1 0 = leafWriteKey1 zeroBuf 0 1 (16 + 0) ∧
    internalWriteKey zeroBuf 0 1 (2056 + 0) = leafWriteKey1 zeroBuf 0 1 (16 + (7 - 0)) :=
  claim_C4_amended 1 0 (by decide)

/-- C8 counterexample: opening a file whose magic field is zero does
not zero the root slots.  `c8Buf` has magic 0 but byte 47 (the low byte
of root slot 0) set to 1; after `loadOrInitMeta`, slot 0 reads 1. -/
theorem claim_C8_counterexample : ¬ c8AllSlotsZeroProp := by
  intro h
  have hok : loadOrInitMeta c8Buf = .ok c8Meta := rfl
  have h0 := h c8Buf (by decide) c8Meta hok 0 (by decide)
  exact absurd h0 (by decide)

/-- C8 as amended: on a zero-magic file, `loadOrInitMeta` initializes
magic, version, root count 0, page count 1 and free list 0, while the
root-table slots keep whatever the file bytes held (zero only for a
freshly created file); a non-zero mismatching magic fails with the
bad-format error, and a matching magic with a mismatching version fails
with the unsupported-version error. -/
theorem claim_C8 :
    (∀ buf : Buf, (MetaPage.Deserialize buf).magic = 0 →
       loadOrInitMeta buf = .ok { MetaPage.Deserialize buf with
         magic := Magic, version := Version, rootCount := 0,
         pageCount := 1, freeList := 0 }) ∧
    (∀ buf : Buf, (MetaPage.Deserialize buf).magic ≠ 0 →
       (MetaPage.Deserialize buf).magic ≠ Magic →
       loadOrInitMeta buf = .error badFormatMsg) ∧
    (∀ buf : Buf, (MetaPage.Deserialize buf).magic = Magic →
       (MetaPage.Deserialize buf).version ≠ Version →
       loadOrInitMeta buf = .error unsupportedVersionMsg) := by
  refine ⟨fun buf h => ?_, fun buf h1 h2 => ?_, fun buf h1 h2 => ?_⟩
  · simp [loadOrInitMeta, h]
  · simp [loadOrInitMeta, h1, h2]
  · have hm : Magic ≠ 0 := by decide
    simp [loadOrInitMeta, h1, hm, h2]

/-- Witness for C8 on the three concrete meta pages. -/
theorem claim_C8_witness :
    loadOrInitMeta c8Buf = .ok { MetaPage.Deserialize c8Buf with
      magic := Magic, version := Version, rootCount := 0,
      pageCount := 1, freeList := 0 } ∧
    loadOrInitMeta c8BufBad = .error badFormatMsg ∧
    loadOrInitMeta c8BufVer = .error unsupportedVersionMsg :=
  ⟨claim_C8.1 c8Buf (by decide), claim_C8.2.1 c8BufBad (by decide) (by decide),
   claim_C8.2.2 c8BufVer (by decide) (by decide)⟩

/-- C10: for any engine state and any root ID at or beyond `MaxRoots`
(500), `Find` returns `(0, false)`, `Delete` returns `false` leaving
the state untouched, `Count` returns 0, and `Insert` returns the
invalid-root-ID error; none of them reaches a panicking path (`Insert`'s
error is precisely `SetRootPage`'s rejection, not the put panic). -/
theorem claim_C10 : ∀ (s : TreeState) (rootID k1 k2 v : Nat), MaxRoots ≤ rootID →
    BPTree.Find s rootID k1 k2 = (0, false) ∧
    BPTree.Delete s rootID k1 k2 = (false, s) ∧
    BPTree.Count s rootID = 0 ∧
    BPTree.Insert s rootID k1 k2 v = .error invalidRootIDMsg := by
  intro s rootID k1 k2 v h
  have hge : rootID ≥ MaxRoots := h
  have hroot : getRootPage s rootID = 0 := by
    simp [getRootPage, if_pos hge]
  refine ⟨?_, ?_, ?_, ?_⟩
  · simp [BPTree.Find, hroot]
  · simp [BPTree.Delete, hroot]
  · simp [BPTree.Count, hroot]
  · have hput : LeafNode.new.Put k1 k2 v =
        some ({ count := 1, entries := [⟨k1, k2, v⟩], nextLeaf := 0 }, true) := by
      simp [LeafNode.new, LeafNode.Put, LeafNode.Search, searchEntries, insertAt, MaxLeafKeys]
    simp [BPTree.Insert, hroot, hput, setRootPageE, if_pos hge]

/-- Witness for C10 at the fresh state and root ID 500. -/
theorem claim_C10_witness :
    BPTree.Find freshState 500 1 2 = (0, false) ∧
    BPTree.Delete freshState 500 1 2 = (false, freshState) ∧
    BPTree.Count freshState 500 = 0 ∧
    BPTree.Insert freshState 500 1 2 3 = .error invalidRootIDMsg :=
  claim_C10 freshState 500 1 2 3 (by decide)

/-- `firstGT` never exceeds the list length. -/
theorem firstGT_le_length (l : List Nat) (k : Nat) : firstGT l k ≤ l.length := by
  induction l with
  | nil => simp [firstGT]
  | cons x rest ih =>
    by_cases h : x > k
    · simp [firstGT, h]
    · simp only [firstGT, if_neg h, List.length_cons]
      omega

/-- Every separator strictly before the index `firstGT` returns is at
most the key. -/
theorem getD_le_of_lt_firstGT (l : List Nat) (k j : Nat) (h : j < firstGT l k) :
    l.getD j 0 ≤ k := by
  induction l generalizing j with
  | nil => simp [firstGT] at h
  | cons x rest ih =>
    by_cases hx : x > k
    · simp [firstGT, hx] at h
    · cases j with
      | zero => simpa using Nat.le_of_not_lt hx
      | succ j =>
        simp only [firstGT, if_neg hx] at h
        exact ih j (by omega)

/-- When `firstGT` lands inside the list, the separator there is
strictly greater than the key. -/
theorem gt_at_firstGT (l : List Nat) (k : Nat) (h : firstGT l k < l.length) :
    k < l.getD (firstGT l k) 0 := by
  induction l with
  | nil => simp at h
  | cons x rest ih =>
    by_cases hx : x > k
    · simp [firstGT, hx]
    · simp only [firstGT, if_neg hx, List.length_cons] at h
      simpa [firstGT, if_neg hx, List.getD_cons_succ] using ih (by omega)

/-- C2 counterexample: delete descent does not use "first separator ≥ k"
semantics.  On the codec's own test node (`[20, 40, 60]` over
`[10, 11, 12, 13]`), a key equal to the first separator yields child
index 1 from `InternalNode.Search` (which `deleteRecursive` calls),
while the claimed rule would yield 0. -/
theorem claim_C2_counterexample :
    ¬ (∀ (n : InternalNode) (k : Nat), n.Search k = n.searchSpecGe k) :=
  fun h => absurd (h c2Node 20) (by decide)

/-- C2 as amended: the delete descent (`deleteRecursive` calls
`InternalNode.Search`) chooses the child by "first separator strictly
greater than k" semantics: every separator before the returned index is
at most `k`, the separator at the returned index (when it exists)
exceeds `k`, and hence a key equal to a separator of a
strictly-ascending node routes to a child right of that separator. -/
theorem claim_C2_amended : ∀ (n : InternalNode) (k : Nat),
    (∀ j, j < n.Search k → (n.keys.take n.count).getD j 0 ≤ k) ∧
    (n.Search k < n.count → n.count ≤ n.keys.length →
      k < (n.keys.take n.count).getD (n.Search k) 0) ∧
    (∀ i, List.Pairwise (· < ·) (n.keys.take n.count) → i < n.count →
      n.count ≤ n.keys.length → (n.keys.take n.count).getD i 0 = k →
      i < n.Search k) := by
  intro n k
  have hlen : ∀ (h : n.count ≤ n.keys.length), (n.keys.take n.count).length = n.count := by
    intro h
    simp [List.length_take, Nat.min_eq_left h]
  refine ⟨fun j hj => getD_le_of_lt_firstGT _ k j hj, fun h1 h2 => ?_, fun i hs hi h2 he => ?_⟩
  · exact gt_at_firstGT _ k (by rw [hlen h2]; exact h1)
  · by_contra hcon
    have hle : n.Search k ≤ i := Nat.le_of_not_lt hcon
    have hfl : n.Search k < (n.keys.take n.count).length := by
      rw [hlen h2]
      omega
    have hgt : k < (n.keys.take n.count).getD (n.Search k) 0 := gt_at_firstGT _ k hfl
    rcases Nat.eq_or_lt_of_le hle with heq | hlt
    · rw [heq] at hgt
      omega
    · have hi2 : i < (n.keys.take n.count).length := by rw [hlen h2]; exact hi
      have hmono := (List.pairwise_iff_getElem.mp hs) (n.Search k) i hfl hi2 hlt
      have he2 := he
      rw [List.getD_eq_getElem _ 0 hi2] at he2
      have hgt2 := hgt
      rw [List.getD_eq_getElem _ 0 hfl] at hgt2
      omega

/-- Witness for the amended C2 on the codec's test node at `k = 20`,
`i = 0`: the equal key routes right of separator 0 (to child index 1). -/
theorem claim_C2_witness :
    (∀ j, j < c2Node.Search 20 → (c2Node.keys.take c2Node.count).getD j 0 ≤ 20) ∧
    (c2Node.Search 20 < c2Node.count → c2Node.count ≤ c2Node.keys.length →
      20 < (c2Node.keys.take c2Node.count).getD (c2Node.Search 20) 0) ∧
    0 < c2Node.Search 20 :=
  ⟨(claim_C2_amended c2Node 20).1, (claim_C2_amended c2Node 20).2.1,
   (claim_C2_amended c2Node 20).2.2 0 (by decide) (by decide) (by decide) (by decide)⟩

/-- The Go copy loop `for i in [0, n): dst[i] = src[s+i]`, rendered with
`List.range`, reads exactly the slice `src[s : s+n]`. -/
theorem rangeMap_getD_eq_drop_take {α : Type} (l : List α) (d : α) (s n : Nat)
    (h : s + n ≤ l.length) :
    (List.range n).map (fun i => l.getD (s + i) d) = (l.drop s).take n := by
  apply List.ext_getElem
  · simp
    omega
  · intro i h1 h2
    have hi : i < n := by simpa using h1
    have hsi : s + i < l.length := by omega
    have hdl : i < (l.drop s).length := by simp; omega
    rw [List.getElem_map, List.getElem_range, List.getElem_take, List.getElem_drop,
      List.getD_eq_getElem _ d hsi]

/-- C6: `InternalNode.Split` of a node holding `count` keys (and
`count + 1` children) keeps keys `[0, mid)` and children `[0, mid]` in
the original, returns key `mid` as the promoted key — stored in neither
output node, since the left keeps indices below `mid` and the right
receives indices above `mid` — moves keys `[mid+1, count)` and children
`[mid+1, count]` to the new node, and leaves `count − 1` keys in total
across the two nodes. -/
theorem claim_C6 : ∀ n : InternalNode,
    n.keys.length = n.count → n.children.length = n.count + 1 → 1 ≤ n.count →
    (n.Split).1 = n.keys.getD (n.count / 2) 0 ∧
    (n.Split).2.1.keys = n.keys.take (n.count / 2) ∧
    (n.Split).2.1.children = n.children.take (n.count / 2 + 1) ∧
    (n.Split).2.1.count = n.count / 2 ∧
    (n.Split).2.2.keys = n.keys.drop (n.count / 2 + 1) ∧
    (n.Split).2.2.children = n.children.drop (n.count / 2 + 1) ∧
    (n.Split).2.2.count = n.count - (n.count / 2) - 1 ∧
    (n.Split).2.1.count + (n.Split).2.2.count = n.count - 1 := by
  intro n hk hc h1
  have hmid : n.count / 2 < n.count := Nat.div_lt_self (by omega) (by omega)
  have hkeys : (List.range (n.count - n.count / 2 - 1)).map
      (fun i => n.keys.getD (n.count / 2 + 1 + i) 0) = n.keys.drop (n.count / 2 + 1) := by
    rw [rangeMap_getD_eq_drop_take n.keys 0 (n.count / 2 + 1) (n.count - n.count / 2 - 1)
      (by omega)]
    apply List.take_of_length_le
    simp [hk]
    omega
  have hch : (List.range (n.count - n.count / 2 - 1 + 1)).map
      (fun i => n.children.getD (n.count / 2 + 1 + i) 0) =
      n.children.drop (n.count / 2 + 1) := by
    rw [rangeMap_getD_eq_drop_take n.children 0 (n.count / 2 + 1)
      (n.count - n.count / 2 - 1 + 1) (by omega)]
    apply List.take_of_length_le
    simp [hc]
    omega
  refine ⟨rfl, rfl, rfl, rfl, ?_, ?_, rfl, by simp [InternalNode.Split]; omega⟩
  · simpa [InternalNode.Split] using hkeys
  · simpa [InternalNode.Split] using hch

/-- Witness for C6 on the ten-key node of the codec's split test. -/
theorem claim_C6_witness :
    (c6Node.Split).1 = c6Node.keys.getD (c6Node.count / 2) 0 ∧
    (c6Node.Split).2.1.keys = c6Node.keys.take (c6Node.count / 2) ∧
    (c6Node.Split).2.1.children = c6Node.children.take (c6Node.count / 2 + 1) ∧
    (c6Node.Split).2.1.count = c6Node.count / 2 ∧
    (c6Node.Split).2.2.keys = c6Node.keys.drop (c6Node.count / 2 + 1) ∧
    (c6Node.Split).2.2.children = c6Node.children.drop (c6Node.count / 2 + 1) ∧
    (c6Node.Split).2.2.count = c6Node.count - (c6Node.count / 2) - 1 ∧
    (c6Node.Split).2.1.count + (c6Node.Split).2.2.count = c6Node.count - 1 :=
  claim_C6 c6Node (by decide) (by decide) (by decide)

/-- The doubling loop reaches a size of at least `required` (given
enough fuel, which the call site always passes), multiplying the
starting size by a power of two that is minimal in the sense that one
fewer doubling would not have sufficed. -/
theorem growSize_spec : ∀ (fuel size required : Nat), 0 < size →
    required ≤ size + fuel →
    required ≤ growSize fuel size required ∧
    ∃ k, growSize fuel size required = size * 2 ^ k ∧
      (k = 0 ∨ size * 2 ^ (k - 1) < required) := by
  intro fuel
  induction fuel with
  | zero =>
    intro size required hs hr
    simp only [growSize]
    exact ⟨by omega, 0, by simp, .inl rfl⟩
  | succ fuel ih =>
    intro size required hs hr
    by_cases hlt : size < required
    · have hrec := ih (size * 2) required (by omega) (by omega)
      obtain ⟨hr2, k, hk, hmin⟩ := hrec
      simp only [growSize, if_pos hlt]
      refine ⟨hr2, k + 1, ?_, ?_⟩
      · rw [hk, Nat.pow_succ]
        ring
      · right
        rcases Nat.eq_zero_or_pos k with h0 | hpos
        · subst h0
          simpa using hlt
        · have hpow : (2 : Nat) ^ k = 2 ^ (k - 1) * 2 := by
            cases k with
            | zero => omega
            | succ m => simp [Nat.pow_succ]
          have heq : size * 2 ^ (k + 1 - 1) = size * 2 * 2 ^ (k - 1) := by
            rw [Nat.add_sub_cancel, hpow]
            ring
          rw [heq]
          rcases hmin with h0 | hm
          · omega
          · exact hm
    · simp only [growSize, if_neg hlt]
      exact ⟨by omega, 0, by simp, .inl rfl⟩

/-- C5: `AllocatePage` pops the non-empty free list — returning its
head, reading the next head big-endian from that page's first 8 bytes,
and zeroing the page — and otherwise returns `pageCount`, incrementing
it, keeping the mapping when `(id+1)*PageSize` fits and otherwise
doubling it repeatedly until it fits; `FreePage id` zeroes the page,
writes the old free-list head into its first 8 bytes, and makes `id`
the head — so an `AllocatePage` immediately after `FreePage id`
returns `id`. -/
theorem claim_C5 :
    (∀ p : Pager, p.freeList ≠ 0 →
      (p.AllocatePage).1 = p.freeList ∧
      (p.AllocatePage).2.freeList = getBE64 (p.pages p.freeList) 0 ∧
      (∀ i, (p.AllocatePage).2.pages p.freeList i = 0) ∧
      (p.AllocatePage).2.pageCount = p.pageCount) ∧
    (∀ p : Pager, p.freeList = 0 →
      (p.AllocatePage).1 = p.pageCount ∧
      (p.AllocatePage).2.pageCount = p.pageCount + 1 ∧
      ((p.pageCount + 1) * PageSize ≤ p.mappedSize →
        (p.AllocatePage).2.mappedSize = p.mappedSize) ∧
      (0 < p.mappedSize → p.mappedSize < (p.pageCount + 1) * PageSize →
        (p.pageCount + 1) * PageSize ≤ (p.AllocatePage).2.mappedSize ∧
        ∃ k, 1 ≤ k ∧ (p.AllocatePage).2.mappedSize = p.mappedSize * 2 ^ k ∧
          (k = 1 ∨ p.mappedSize * 2 ^ (k - 1) < (p.pageCount + 1) * PageSize))) ∧
    (∀ (p : Pager) (id : Nat),
      (p.FreePage id).freeList = id ∧
      (∀ j, j < 8 → (p.FreePage id).pages id j = be64byte p.freeList j) ∧
      (∀ j, 8 ≤ j → (p.FreePage id).pages id j = 0)) ∧
    (∀ (p : Pager) (id : Nat), id ≠ 0 → ((p.FreePage id).AllocatePage).1 = id) := by
  refine ⟨fun p h => ?_, fun p h => ?_, fun p id => ?_, fun p id hid => ?_⟩
  · simp [Pager.AllocatePage, h, updatePage, zeroBuf]
  · have hcount : (p.AllocatePage).1 = p.pageCount ∧
        (p.AllocatePage).2.pageCount = p.pageCount + 1 := by
      simp [Pager.AllocatePage, h]
    refine ⟨hcount.1, hcount.2, fun hfit => ?_, fun hpos hgrow => ?_⟩
    · simp [Pager.AllocatePage, h, if_neg (Nat.not_lt.mpr hfit)]
    · have hms : (p.AllocatePage).2.mappedSize =
          growSize ((p.pageCount + 1) * PageSize + 1) (p.mappedSize * 2)
            ((p.pageCount + 1) * PageSize) := by
        simp [Pager.AllocatePage, h, if_pos hgrow]
      obtain ⟨hr, k, hk, hmin⟩ := growSize_spec ((p.pageCount + 1) * PageSize + 1)
        (p.mappedSize * 2) ((p.pageCount + 1) * PageSize) (by omega) (by omega)
      rw [hms]
      refine ⟨hr, k + 1, by omega, ?_, ?_⟩
      · rw [hk, Nat.pow_succ]
        ring
      · rcases Nat.eq_zero_or_pos k with h0 | hpos2
        · subst h0
          exact .inl rfl
        · right
          have hpow : (2 : Nat) ^ k = 2 ^ (k - 1) * 2 := by
            cases k with
            | zero => omega
            | succ m => simp [Nat.pow_succ]
          have heq : p.mappedSize * 2 ^ (k + 1 - 1) = p.mappedSize * 2 * 2 ^ (k - 1) := by
            rw [Nat.add_sub_cancel, hpow]
            ring
          rw [heq]
          rcases hmin with h0 | hm
          · omega
          · exact hm
  · refine ⟨rfl, fun j hj => ?_, fun j hj => ?_⟩
    · simp [Pager.FreePage, updatePage, putBE64, hj]
    · have hnot : ¬ j < 0 + 8 := by omega
      simp [Pager.FreePage, updatePage, putBE64, zeroBuf, hnot]
  · simp [Pager.AllocatePage, Pager.FreePage, hid]

/-- Witness for C5: popping a free list whose head is page 2 (next
pointer 7), allocating with growth on a one-page mapping, freeing page
9, and allocate-after-free of page 3. -/
theorem claim_C5_witness :
    ((c5PagerPop.AllocatePage).1 = c5PagerPop.freeList ∧
      (c5PagerPop.AllocatePage).2.freeList = getBE64 (c5PagerPop.pages c5PagerPop.freeList) 0) ∧
    ((c5PagerGrow.AllocatePage).1 = c5PagerGrow.pageCount ∧
      (c5PagerGrow.AllocatePage).2.pageCount = c5PagerGrow.pageCount + 1) ∧
    ((c5PagerGrow.pageCount + 1) * PageSize ≤ (c5PagerGrow.AllocatePage).2.mappedSize) ∧
    (c5PagerPop.FreePage 9).freeList = 9 ∧
    ((c5PagerGrow.FreePage 3).AllocatePage).1 = 3 :=
  ⟨⟨(claim_C5.1 c5PagerPop (by decide)).1, (claim_C5.1 c5PagerPop (by decide)).2.1⟩,
   ⟨(claim_C5.2.1 c5PagerGrow rfl).1, (claim_C5.2.1 c5PagerGrow rfl).2.1⟩,
   ((claim_C5.2.1 c5PagerGrow rfl).2.2.2 (by decide) (by decide)).1,
   (claim_C5.2.2.1 c5PagerPop 9).1,
   claim_C5.2.2.2 c5PagerGrow 3 (by decide)⟩

/-- Looking up a key right after inserting it finds the inserted value,
for any key below `2 ^ fuel`. -/
theorem PMap.find?_insertF_self {α : Type} : ∀ (fuel k : Nat) (m : PMap α) (a : α),
    1 ≤ k → k < 2 ^ fuel → (PMap.insertF fuel m k a).find? k = some a := by
  intro fuel
  induction fuel with
  | zero =>
    intro k m a h1 h2
    simp at h2
    omega
  | succ fuel ih =>
    intro k m a h1 h2
    have h2x : k < 2 * 2 ^ fuel := by
      rw [Nat.pow_succ] at h2
      omega
    by_cases hk : k = 1
    · subst hk
      cases m <;> simp [PMap.insertF, PMap.find?]
    · have hge : 2 ≤ k := by omega
      have hhalf1 : 1 ≤ k / 2 := by omega
      have hhalf2 : k / 2 < 2 ^ fuel := by omega
      by_cases he : k % 2 = 0 <;>
        cases m <;>
          simp [PMap.insertF, PMap.find?, hk, he, ih (k / 2) _ a hhalf1 hhalf2]

/-- The same, through the fixed 64-bit wrapper. -/
theorem PMap.find?_ins_self {α : Type} (m : PMap α) (k : Nat) (a : α)
    (h1 : 1 ≤ k) (h2 : k < 2 ^ 64) : (m.ins k a).find? k = some a :=
  PMap.find?_insertF_self 64 k m a h1 h2

/-- C7: after a successful `Delete`, when the recursion leaves the root
page holding an internal node with zero keys, the root slot is redirected
to that node's sole child (child 0) and the old root page is freed
(prepended to the free list); when it leaves the root page holding a
leaf with zero entries, the root slot is set to 0 and the page is freed
the same way. -/
theorem claim_C7 : ∀ (s : TreeState) (rootID k1 k2 : Nat),
    getRootPage s rootID ≠ 0 → getRootPage s rootID < 2 ^ 64 →
    (deleteRec (s.pageCount + 1) s (getRootPage s rootID) k1 k2).1 = true →
    (∀ n : InternalNode,
      (deleteRec (s.pageCount + 1) s (getRootPage s rootID) k1 k2).2.2.pages.find?
          (getRootPage s rootID) = some (.internal n) →
      n.count = 0 →
      (BPTree.Delete s rootID k1 k2).1 = true ∧
      (BPTree.Delete s rootID k1 k2).2.rootTable rootID = n.GetChild 0 ∧
      (BPTree.Delete s rootID k1 k2).2.freeList = getRootPage s rootID ∧
      (BPTree.Delete s rootID k1 k2).2.pages.find? (getRootPage s rootID) =
        some (.freePage (deleteRec (s.pageCount + 1) s (getRootPage s rootID) k1 k2).2.2.freeList)) ∧
    (∀ l : LeafNode,
      (deleteRec (s.pageCount + 1) s (getRootPage s rootID) k1 k2).2.2.pages.find?
          (getRootPage s rootID) = some (.leaf l) →
      l.count = 0 →
      (BPTree.Delete s rootID k1 k2).1 = true ∧
      (BPTree.Delete s rootID k1 k2).2.rootTable rootID = 0 ∧
      (BPTree.Delete s rootID k1 k2).2.freeList = getRootPage s rootID ∧
      (BPTree.Delete s rootID k1 k2).2.pages.find? (getRootPage s rootID) =
        some (.freePage (deleteRec (s.pageCount + 1) s (getRootPage s rootID) k1 k2).2.2.freeList)) := by
  intro s rootID k1 k2 hne hlt hdel
  have hrid : ¬ rootID ≥ MaxRoots := by
    intro hge
    apply hne
    simp [getRootPage, if_pos hge]
  rcases hrec : deleteRec (s.pageCount + 1) s (getRootPage s rootID) k1 k2 with ⟨d, u, s1⟩
  rw [hrec] at hdel
  simp at hdel
  subst hdel
  have hdelete : ∀ pg, s1.pages.find? (getRootPage s rootID) = pg →
      BPTree.Delete s rootID k1 k2 =
        (match pg with
          | some (.internal n) =>
            if n.count = 0 then
              (true, treeFreePage (setRootPageD s1 rootID (n.GetChild 0)) (getRootPage s rootID))
            else (true, s1)
          | some (.leaf l) =>
            if l.count = 0 then
              (true, treeFreePage (setRootPageD s1 rootID 0) (getRootPage s rootID))
            else (true, s1)
          | _ => (true, s1)) := by
    intro pg hpg
    simp only [BPTree.Delete, if_neg hne, hrec, hpg]
    simp
  constructor
  · intro n hfind hcount
    have heq := hdelete _ hfind
    rw [heq]
    simp only [hcount, if_pos rfl]
    refine ⟨rfl, ?_, rfl, ?_⟩
    · simp [treeFreePage, setRootPageD, setRootPageE, if_neg hrid]
    · simp only [treeFreePage, setRootPageD, setRootPageE, if_neg hrid, hrec]
      exact PMap.find?_ins_self _ _ _ (by omega) hlt
  · intro l hfind hcount
    have heq := hdelete _ hfind
    rw [heq]
    simp only [hcount, if_pos rfl]
    refine ⟨rfl, ?_, rfl, ?_⟩
    · simp [treeFreePage, setRootPageD, setRootPageE, if_neg hrid]
    · simp only [treeFreePage, setRootPageD, setRootPageE, if_neg hrid, hrec]
      exact PMap.find?_ins_self _ _ _ (by omega) hlt

/-- Witness for C7: the internal-root case on the three-page tree
(deleting key `(20,0)` merges the leaves, empties the root, promotes
page 1 and frees page 3) and the leaf-root case on the one-page tree
(deleting key `(7,0)` empties the root leaf, clears the root slot and
frees page 1). -/
theorem claim_C7_witness :
    ((BPTree.Delete c7State 0 20 0).1 = true ∧
      (BPTree.Delete c7State 0 20 0).2.rootTable 0 =
        InternalNode.GetChild { count := 0, keys := [], children := [1] } 0 ∧
      (BPTree.Delete c7State 0 20 0).2.freeList = getRootPage c7State 0 ∧
      (BPTree.Delete c7State 0 20 0).2.pages.find? (getRootPage c7State 0) =
        some (.freePage (deleteRec (c7State.pageCount + 1) c7State
          (getRootPage c7State 0) 20 0).2.2.freeList)) ∧
    ((BPTree.Delete c7LeafState 0 7 0).1 = true ∧
      (BPTree.Delete c7LeafState 0 7 0).2.rootTable 0 = 0 ∧
      (BPTree.Delete c7LeafState 0 7 0).2.freeList = getRootPage c7LeafState 0 ∧
      (BPTree.Delete c7LeafState 0 7 0).2.pages.find? (getRootPage c7LeafState 0) =
        some (.freePage (deleteRec (c7LeafState.pageCount + 1) c7LeafState
          (getRootPage c7LeafState 0) 7 0).2.2.freeList)) :=
  ⟨(claim_C7 c7State 0 20 0 (by decide) (by decide) (by decide)).1
      { count := 0, keys := [], children := [1] } (by decide) (by decide),
   (claim_C7 c7LeafState 0 7 0 (by decide) (by decide) (by decide)).2
      { count := 0, entries := [], nextLeaf := 0 } (by decide) (by decide)⟩

/-- `compareKeys` returns -1 exactly on lexicographically smaller keys. -/
theorem compareKeys_eq_neg_iff (a1 a2 b1 b2 : Nat) :
    compareKeys a1 a2 b1 b2 = -1 ↔ (a1 < b1 ∨ (a1 = b1 ∧ a2 < b2)) := by
  simp only [compareKeys]
  split_ifs <;> simp <;> omega

/-- `compareKeys` returns 1 exactly on lexicographically greater keys. -/
theorem compareKeys_eq_one_iff (a1 a2 b1 b2 : Nat) :
    compareKeys a1 a2 b1 b2 = 1 ↔ (b1 < a1 ∨ (a1 = b1 ∧ b2 < a2)) := by
  simp only [compareKeys]
  split_ifs <;> simp <;> omega

/-- `compareKeys` returns 0 exactly on equal keys. -/
theorem compareKeys_eq_zero_iff (a1 a2 b1 b2 : Nat) :
    compareKeys a1 a2 b1 b2 = 0 ↔ (a1 = b1 ∧ a2 = b2) := by
  simp only [compareKeys]
  split_ifs <;> simp <;> omega

/-- `compareKeys` takes no values besides -1, 0 and 1. -/
theorem compareKeys_cases (a1 a2 b1 b2 : Nat) :
    compareKeys a1 a2 b1 b2 = -1 ∨ compareKeys a1 a2 b1 b2 = 0 ∨
      compareKeys a1 a2 b1 b2 = 1 := by
  simp only [compareKeys]
  split_ifs <;> simp

/-- The strict entry order is transitive. -/
theorem entLT_trans {a b c : Entry} (h1 : entLT a b) (h2 : entLT b c) : entLT a c := by
  simp only [entLT, compareKeys_eq_neg_iff] at h1 h2 ⊢
  omega

/-- Every index before the one `searchEntries` returns compares
strictly below the searched key. -/
theorem searchEntries_lt (es : List Entry) (k1 k2 : Nat) :
    ∀ j e, j < searchEntries es k1 k2 → es.get? j = some e →
      compareKeys e.key1 e.key2 k1 k2 = -1 := by
  induction es with
  | nil => simp [searchEntries]
  | cons x rest ih =>
    intro j e hj hg
    by_cases hx : compareKeys x.key1 x.key2 k1 k2 ≥ 0
    · simp [searchEntries, hx] at hj
    · cases j with
      | zero =>
        have hx1 : compareKeys x.key1 x.key2 k1 k2 = -1 := by
          rcases compareKeys_cases x.key1 x.key2 k1 k2 with h | h | h <;> omega
        simp at hg
        exact hg ▸ hx1
      | succ j =>
        simp only [searchEntries, if_neg hx] at hj
        exact ih j e (by omega) (by simpa using hg)

/-- Membership in an `insertAt` result comes from the new element or
the old list. -/
theorem mem_insertAt {α : Type} : ∀ (n : Nat) (a x : α) (l : List α),
    x ∈ insertAt n a l → x = a ∨ x ∈ l := by
  intro n
  induction n with
  | zero =>
    intro a x l h
    simp [insertAt] at h
    tauto
  | succ n ih =>
    intro a x l h
    cases l with
    | nil =>
      simp [insertAt] at h
      tauto
    | cons y rest =>
      simp only [insertAt, List.mem_cons] at h
      rcases h with h | h
      · exact .inr (by simp [h])
      · rcases ih a x rest h with h2 | h2
        · exact .inl h2
        · exact .inr (by simp [h2])

/-- If the search misses on a sorted list, no entry carries the key. -/
theorem not_mem_of_search_false (es : List Entry) (k1 k2 : Nat)
    (hs : sortedEntries es)
    (hf : ∀ e, es.get? (searchEntries es k1 k2) = some e →
      ¬ (e.key1 = k1 ∧ e.key2 = k2)) :
    ∀ e ∈ es, ¬ (e.key1 = k1 ∧ e.key2 = k2) := by
  induction es with
  | nil => simp
  | cons x rest ih =>
    have hs2 : sortedEntries rest := (List.pairwise_cons.mp hs).2
    intro e he ⟨he1, he2⟩
    by_cases hx : compareKeys x.key1 x.key2 k1 k2 ≥ 0
    · rcases List.mem_cons.mp he with rfl | hmem
      · exact hf e (by simp [searchEntries, hx]) ⟨he1, he2⟩
      · have hlt : entLT x e := (List.pairwise_cons.mp hs).1 e hmem
        simp only [entLT, compareKeys_eq_neg_iff] at hlt
        rcases compareKeys_cases x.key1 x.key2 k1 k2 with h | h | h
        · omega
        · rw [compareKeys_eq_zero_iff] at h
          omega
        · rw [compareKeys_eq_one_iff] at h
          omega
    · rcases List.mem_cons.mp he with rfl | hmem
      · rcases compareKeys_cases e.key1 e.key2 k1 k2 with h | h | h
        · rw [compareKeys_eq_neg_iff] at h
          omega
        · omega
        · rw [compareKeys_eq_one_iff] at h
          omega
      · refine ih hs2 ?_ e hmem ⟨he1, he2⟩
        intro e2 hg
        exact hf e2 (by simpa [searchEntries, hx] using hg)

/-- Inserting a missing key at the index `searchEntries` returns keeps
the entries sorted. -/
theorem sorted_insertAt_search (es : List Entry) (k1 k2 v : Nat)
    (hs : sortedEntries es)
    (hnm : ∀ e ∈ es, ¬ (e.key1 = k1 ∧ e.key2 = k2)) :
    sortedEntries (insertAt (searchEntries es k1 k2) ⟨k1, k2, v⟩ es) := by
  induction es with
  | nil => simp [searchEntries, insertAt, sortedEntries]
  | cons x rest ih =>
    have hx0 : ¬ (x.key1 = k1 ∧ x.key2 = k2) := hnm x (by simp)
    have hps := List.pairwise_cons.mp hs
    by_cases hx : compareKeys x.key1 x.key2 k1 k2 ≥ 0
    · have hgt : compareKeys x.key1 x.key2 k1 k2 = 1 := by
        rcases compareKeys_cases x.key1 x.key2 k1 k2 with h | h | h
        · omega
        · rw [compareKeys_eq_zero_iff] at h
          exact absurd h hx0
        · exact h
      have hlt : entLT ⟨k1, k2, v⟩ x := by
        simp only [entLT, compareKeys_eq_neg_iff]
        rw [compareKeys_eq_one_iff] at hgt
        omega
      simp only [searchEntries, if_pos hx, insertAt]
      refine List.pairwise_cons.mpr ⟨?_, hs⟩
      intro e he
      rcases List.mem_cons.mp he with rfl | hmem
      · exact hlt
      · exact entLT_trans hlt (hps.1 e hmem)
    · have hxlt : entLT x ⟨k1, k2, v⟩ := by
        simp only [entLT]
        rcases compareKeys_cases x.key1 x.key2 k1 k2 with h | h | h
        · exact h
        · omega
        · omega
      simp only [searchEntries, if_neg hx, insertAt]
      refine List.pairwise_cons.mpr ⟨?_, ih hps.2 (fun e he => hnm e (by simp [he]))⟩
      intro e he
      rcases mem_insertAt _ _ _ _ he with rfl | hmem
      · exact hxlt
      · exact hps.1 e hmem

/-- The index component of `LeafNode.Search` is the `searchEntries`
scan index. -/
theorem Search_fst (l : LeafNode) (k1 k2 : Nat) :
    (l.Search k1 k2).1 = searchEntries l.entries k1 k2 := by
  simp only [LeafNode.Search]
  rcases l.entries.get? (searchEntries l.entries k1 k2) with _ | e <;> simp

/-- When `LeafNode.Search` reports not-found, the entry at the search
index (when it exists) does not carry the key. -/
theorem Search_false_at (l : LeafNode) (k1 k2 : Nat)
    (h : (l.Search k1 k2).2 = false) :
    ∀ e, l.entries.get? (searchEntries l.entries k1 k2) = some e →
      ¬ (e.key1 = k1 ∧ e.key2 = k2) := by
  intro e hg
  simp only [LeafNode.Search, hg] at h
  simpa using h

/-- `LeafNode.Get` reports found exactly when `LeafNode.Search` does. -/
theorem Get_snd (l : LeafNode) (k1 k2 : Nat) :
    (l.Get k1 k2).2 = (l.Search k1 k2).2 := by
  simp only [LeafNode.Get]
  rcases hs : l.Search k1 k2 with ⟨idx, fd⟩
  cases fd <;> simp

/-- `LeafNode.Put` on a present key: overwrite in place, report
"updated" (`false`), leave the count unchanged. -/
theorem Put_found (l : LeafNode) (k1 k2 v : Nat) (h : (l.Search k1 k2).2 = true) :
    l.Put k1 k2 v =
      some ({ l with entries := setAt (l.Search k1 k2).1 ⟨k1, k2, v⟩ l.entries }, false) := by
  rcases hs : l.Search k1 k2 with ⟨idx, fd⟩
  rw [hs] at h
  simp at h
  subst h
  simp [LeafNode.Put, hs]

/-- `LeafNode.Put` on a missing key with room: shift the higher entries
right by inserting at the search index, report "inserted" (`true`). -/
theorem Put_not_found (l : LeafNode) (k1 k2 v : Nat)
    (h : (l.Search k1 k2).2 = false) (h2 : l.count < MaxLeafKeys) :
    l.Put k1 k2 v =
      some ({ l with entries := insertAt (l.Search k1 k2).1 ⟨k1, k2, v⟩ l.entries,
                     count := l.count + 1 }, true) := by
  rcases hs : l.Search k1 k2 with ⟨idx, fd⟩
  rw [hs] at h
  simp at h
  subst h
  simp [LeafNode.Put, hs, Nat.not_le.mpr h2]

/-- `LeafNode.Put` hits the panic branch exactly when the key is
missing and the leaf already holds `MaxLeafKeys` entries. -/
theorem Put_eq_none_iff (l : LeafNode) (k1 k2 v : Nat) :
    l.Put k1 k2 v = none ↔ ((l.Search k1 k2).2 = false ∧ MaxLeafKeys ≤ l.count) := by
  rcases hs : l.Search k1 k2 with ⟨idx, fd⟩
  cases fd
  · by_cases hc : MaxLeafKeys ≤ l.count
    · simp [LeafNode.Put, hs, hc]
    · simp [LeafNode.Put, hs, hc]
  · simp [LeafNode.Put, hs]

/-- A successful `Put` grows the count by at most one. -/
theorem Put_count_le (l : LeafNode) (k1 k2 v : Nat) (l2 : LeafNode) (ins : Bool)
    (h : l.Put k1 k2 v = some (l2, ins)) : l2.count ≤ l.count + 1 := by
  by_cases hf : (l.Search k1 k2).2 = true
  · rw [Put_found l k1 k2 v hf] at h
    have h3 := congrArg (fun p => p.1.count) (Option.some.inj h)
    simp at h3
    omega
  · have hf2 : (l.Search k1 k2).2 = false := by simpa using hf
    by_cases hc : l.count < MaxLeafKeys
    · rw [Put_not_found l k1 k2 v hf2 hc] at h
      have h3 := congrArg (fun p => p.1.count) (Option.some.inj h)
      simp at h3
      omega
    · rw [(Put_eq_none_iff l k1 k2 v).mpr ⟨hf2, by omega⟩] at h
      exact Option.noConfusion h

/-- Anything found after an insertion is either the inserted value or
was already in the trie. -/
theorem PMap.find?_insertF_cases {α : Type} :
    ∀ (fuel : Nat) (m : PMap α) (k : Nat) (a : α) (k2 : Nat) (b : α),
    (PMap.insertF fuel m k a).find? k2 = some b → b = a ∨ m.find? k2 = some b := by
  intro fuel
  induction fuel with
  | zero =>
    intro m k a k2 b h
    exact .inr h
  | succ fuel ih =>
    intro m k a k2 b h
    by_cases hk : k = 1 <;> by_cases hk2 : k2 = 1
    · subst hk
      subst hk2
      cases m <;> simp [PMap.insertF, PMap.find?] at h <;> exact .inl h.symm
    · subst hk
      by_cases he2 : k2 % 2 = 0
      · cases m with
        | nil => simp [PMap.insertF, PMap.find?, hk2, he2] at h
        | node l v r =>
          simp only [PMap.insertF, PMap.find?, if_neg hk2, if_pos he2] at h
          exact .inr (by simp [PMap.find?, hk2, he2, h])
      · cases m with
        | nil => simp [PMap.insertF, PMap.find?, hk2, he2] at h
        | node l v r =>
          simp only [PMap.insertF, PMap.find?, if_neg hk2, if_neg he2] at h
          exact .inr (by simp [PMap.find?, hk2, he2, h])
    · subst hk2
      by_cases he : k % 2 = 0
      · cases m with
        | nil => simp [PMap.insertF, PMap.find?, hk, he] at h
        | node l v r =>
          simp only [PMap.insertF, if_neg hk, if_pos he, PMap.find?, if_pos rfl] at h
          simp at h
          exact .inr (by simp [PMap.find?, h])
      · cases m with
        | nil => simp [PMap.insertF, PMap.find?, hk, he] at h
        | node l v r =>
          simp only [PMap.insertF, if_neg hk, if_neg he, PMap.find?, if_pos rfl] at h
          simp at h
          exact .inr (by simp [PMap.find?, h])
    · by_cases he : k % 2 = 0 <;> by_cases he2 : k2 % 2 = 0
      · cases m with
        | nil =>
          simp only [PMap.insertF, if_neg hk, if_pos he, PMap.find?, if_neg hk2,
            if_pos he2] at h
          rcases ih _ _ _ _ _ h with h2 | h2
          · exact .inl h2
          · simp [PMap.find?] at h2
        | node l v r =>
          simp only [PMap.insertF, if_neg hk, if_pos he, PMap.find?, if_neg hk2,
            if_pos he2] at h
          rcases ih _ _ _ _ _ h with h2 | h2
          · exact .inl h2
          · exact .inr (by simp [PMap.find?, hk2, he2, h2])
      · cases m with
        | nil =>
          simp [PMap.insertF, if_neg hk, if_pos he, PMap.find?, hk2, he2] at h
        | node l v r =>
          simp only [PMap.insertF, if_neg hk, if_pos he, PMap.find?, if_neg hk2,
            if_neg he2] at h
          exact .inr (by simp [PMap.find?, hk2, he2, h])
      · cases m with
        | nil =>
          simp only [PMap.insertF, if_neg hk, if_neg he, PMap.find?, if_neg hk2,
            if_pos he2] at h
          simp [PMap.find?] at h
        | node l v r =>
          simp only [PMap.insertF, if_neg hk, if_neg he, PMap.find?, if_neg hk2,
            if_pos he2] at h
          exact .inr (by simp [PMap.find?, hk2, he2, h])
      · cases m with
        | nil =>
          simp only [PMap.insertF, if_neg hk, if_neg he, PMap.find?, if_neg hk2,
            if_neg he2] at h
          rcases ih _ _ _ _ _ h with h2 | h2
          · exact .inl h2
          · simp [PMap.find?] at h2
        | node l v r =>
          simp only [PMap.insertF, if_neg hk, if_neg he, PMap.find?, if_neg hk2,
            if_neg he2] at h
          rcases ih _ _ _ _ _ h with h2 | h2
          · exact .inl h2
          · exact .inr (by simp [PMap.find?, hk2, he2, h2])

/-- Writing a page whose leaf content (if any) is within capacity keeps
the store well formed. -/
theorem pagesLeafOK_ins (m : PMap Page) (pid : Nat) (pg : Page)
    (hOK : pagesLeafOK m) (hpg : ∀ l2 : LeafNode, pg = .leaf l2 → l2.count ≤ MaxLeafKeys) :
    pagesLeafOK (m.ins pid pg) := by
  intro pid2 l2 h
  rcases PMap.find?_insertF_cases 64 m pid pg pid2 _ h with h2 | h2
  · exact hpg l2 h2.symm
  · exact hOK pid2 l2 h2

/-- `allocPage` writes at most a cleared (freed) page. -/
theorem pagesLeafOK_alloc (s : TreeState) (hOK : pagesLeafOK s.pages) :
    pagesLeafOK (allocPage s).2.pages := by
  by_cases h : s.freeList ≠ 0
  · simp only [allocPage, if_pos h]
    exact pagesLeafOK_ins _ _ _ hOK (fun l2 h2 => Page.noConfusion h2)
  · simp only [allocPage, if_neg h]
    exact hOK

/-- The two halves a leaf split produces hold `count / 2` and
`count − count / 2` entries. -/
theorem Split_counts (l : LeafNode) :
    (l.Split).2.1.count = l.count / 2 ∧ (l.Split).2.2.count = l.count - l.count / 2 := by
  simp [LeafNode.Split]

/-- The leaf step of insert never reaches the put panic, and it keeps
every leaf within capacity. -/
theorem insertLeafStep_no_panic (s : TreeState) (pid : Nat) (l : LeafNode) (k1 k2 v : Nat)
    (hOK : pagesLeafOK s.pages) (hl : l.count ≤ MaxLeafKeys) :
    insertLeafStep s pid l k1 k2 v ≠ .error panicMsg ∧
    ∀ r, insertLeafStep s pid l k1 k2 v = .ok r → pagesLeafOK r.2.2.pages := by
  have hM : MaxLeafKeys = 170 := rfl
  by_cases hfull : l.IsFull = true
  · by_cases hfound : (l.Get k1 k2).2 = true
    · -- full, but the key is present: the put takes the update branch
      have hsf : (l.Search k1 k2).2 = true := by rw [← Get_snd]; exact hfound
      constructor
      · simp [insertLeafStep, hfull, hfound, Put_found l k1 k2 v hsf]
      · intro r hr
        simp [insertLeafStep, hfull, hfound, Put_found l k1 k2 v hsf] at hr
        rw [← hr]
        exact pagesLeafOK_ins _ _ _ hOK
          (fun l2 h2 => by cases h2; simpa using hl)
    · -- full and missing: split
      rcases ha : allocPage s with ⟨newPageID, s1⟩
      have hOK1 : pagesLeafOK s1.pages := by
        have := pagesLeafOK_alloc s hOK
        rw [ha] at this
        exact this
      rcases hf2 : s1.pages.find? pid with _ | pg
      · constructor
        · simp [insertLeafStep, hfull, hfound, ha, hf2]
          decide
        · intro r hr
          simp [insertLeafStep, hfull, hfound, ha, hf2] at hr
      · cases pg with
        | leaf lf =>
          have hlf : lf.count ≤ MaxLeafKeys := hOK1 pid lf hf2
          rcases hsplit : lf.Split with ⟨sk, lf2, nl⟩
          have hc2 : lf2.count ≤ MaxLeafKeys / 2 := by
            have := (Split_counts lf).1
            rw [hsplit] at this
            simp at this
            omega
          have hcn : nl.count ≤ MaxLeafKeys - MaxLeafKeys / 2 := by
            have := (Split_counts lf).2
            rw [hsplit] at this
            simp at this
            omega
          by_cases hcmp : k1 < sk
          · rcases hput : lf2.Put k1 k2 v with _ | ⟨lf3, i2⟩
            · rw [Put_eq_none_iff] at hput
              exact absurd hput.2 (by omega)
            · have hl3 : lf3.count ≤ MaxLeafKeys := by
                have := Put_count_le lf2 k1 k2 v lf3 i2 hput
                omega
              constructor
              · simp [insertLeafStep, hfull, hfound, ha, hf2, hsplit, hcmp, hput]
              · intro r hr
                simp [insertLeafStep, hfull, hfound, ha, hf2, hsplit, hcmp, hput] at hr
                rw [← hr]
                refine pagesLeafOK_ins _ _ _ (pagesLeafOK_ins _ _ _ hOK1 ?_) ?_
                · intro l2 h2
                  cases h2
                  simpa using hl3
                · intro l2 h2
                  cases h2
                  simp
                  omega
          · rcases hput : nl.Put k1 k2 v with _ | ⟨nl2, i2⟩
            · rw [Put_eq_none_iff] at hput
              exact absurd hput.2 (by omega)
            · have hn2 : nl2.count ≤ MaxLeafKeys := by
                have := Put_count_le nl k1 k2 v nl2 i2 hput
                omega
              constructor
              · simp [insertLeafStep, hfull, hfound, ha, hf2, hsplit, hcmp, hput]
              · intro r hr
                simp [insertLeafStep, hfull, hfound, ha, hf2, hsplit, hcmp, hput] at hr
                rw [← hr]
                refine pagesLeafOK_ins _ _ _ (pagesLeafOK_ins _ _ _ hOK1 ?_) ?_
                · intro l2 h2
                  cases h2
                  simpa using hc2.trans (by omega)
                · intro l2 h2
                  cases h2
                  simpa using hn2
        | internal n =>
          constructor
          · simp [insertLeafStep, hfull, hfound, ha, hf2]
            decide
          · intro r hr
            simp [insertLeafStep, hfull, hfound, ha, hf2] at hr
        | freePage n =>
          constructor
          · simp [insertLeafStep, hfull, hfound, ha, hf2]
            decide
          · intro r hr
            simp [insertLeafStep, hfull, hfound, ha, hf2] at hr
  · -- not full: room for the put
    have hc : l.count < MaxLeafKeys := by
      simpa [LeafNode.IsFull] using hfull
    rcases hput : l.Put k1 k2 v with _ | ⟨l2, ins⟩
    · rw [Put_eq_none_iff] at hput
      exact absurd hput.2 (by omega)
    · have hl2 : l2.count ≤ MaxLeafKeys := by
        have := Put_count_le l k1 k2 v l2 ins hput
        omega
      constructor
      · simp [insertLeafStep, hfull, hput]
      · intro r hr
        simp [insertLeafStep, hfull, hput] at hr
        rw [← hr]
        exact pagesLeafOK_ins _ _ _ hOK
          (fun l3 h3 => by cases h3; simpa using hl2)

/-- The recursive insert never reaches the put panic and keeps every
leaf within capacity, for any fuel. -/
theorem insertRec_no_panic : ∀ (fuel : Nat) (s : TreeState) (pid k1 k2 v : Nat),
    pagesLeafOK s.pages →
    insertRec fuel s pid k1 k2 v ≠ .error panicMsg ∧
    ∀ r, insertRec fuel s pid k1 k2 v = .ok r → pagesLeafOK r.2.2.pages := by
  intro fuel
  induction fuel with
  | zero =>
    intro s pid k1 k2 v hOK
    constructor
    · simp [insertRec]
      decide
    · intro r hr
      simp [insertRec] at hr
  | succ fuel ih =>
    intro s pid k1 k2 v hOK
    rcases hp : s.pages.find? pid with _ | pg
    · constructor
      · simp [insertRec, hp]
        decide
      · intro r hr
        simp [insertRec, hp] at hr
    · cases pg with
      | freePage n =>
        constructor
        · simp [insertRec, hp]
          decide
        · intro r hr
          simp [insertRec, hp] at hr
      | leaf l =>
        have hstep := insertLeafStep_no_panic s pid l k1 k2 v hOK (hOK pid l hp)
        have hred : insertRec (fuel + 1) s pid k1 k2 v = insertLeafStep s pid l k1 k2 v := by
          simp [insertRec, hp]
        rw [hred]
        exact hstep
      | internal n =>
        have hchild := ih s (n.GetChildForKey k1) k1 k2 v hOK
        rcases hres : insertRec fuel s (n.GetChildForKey k1) k1 k2 v with e | ⟨sk, nc, s1⟩
        · have hne : e ≠ panicMsg := fun hcon => hchild.1 (by rw [hres, hcon])
          constructor
          · simpa [insertRec, hp, hres] using hne
          · intro r hr
            simp [insertRec, hp, hres] at hr
        · have hOK1 : pagesLeafOK s1.pages := hchild.2 (sk, nc, s1) hres
          by_cases hnc : nc = 0
          · subst hnc
            constructor
            · simp [insertRec, hp, hres]
            · intro r hr
              simp [insertRec, hp, hres] at hr
              rw [← hr]
              exact hOK1
          · rcases hf1 : s1.pages.find? pid with _ | pg1
            · constructor
              · simp [insertRec, hp, hres, hnc, hf1]
                decide
              · intro r hr
                simp [insertRec, hp, hres, hnc, hf1] at hr
            · cases pg1 with
              | leaf l1 =>
                constructor
                · simp [insertRec, hp, hres, hnc, hf1]
                  decide
                · intro r hr
                  simp [insertRec, hp, hres, hnc, hf1] at hr
              | freePage n1 =>
                constructor
                · simp [insertRec, hp, hres, hnc, hf1]
                  decide
                · intro r hr
                  simp [insertRec, hp, hres, hnc, hf1] at hr
              | internal n1 =>
                by_cases hfull : n1.IsFull = true
                · rcases ha : allocPage s1 with ⟨npid, s2⟩
                  have hOK2 : pagesLeafOK s2.pages := by
                    have := pagesLeafOK_alloc s1 hOK1
                    rw [ha] at this
                    exact this
                  rcases hf3 : s2.pages.find? pid with _ | pg2
                  · constructor
                    · simp [insertRec, hp, hres, hnc, hf1, hfull, ha, hf3]
                      decide
                    · intro r hr
                      simp [insertRec, hp, hres, hnc, hf1, hfull, ha, hf3] at hr
                  · cases pg2 with
                    | leaf l2 =>
                      constructor
                      · simp [insertRec, hp, hres, hnc, hf1, hfull, ha, hf3]
                        decide
                      · intro r hr
                        simp [insertRec, hp, hres, hnc, hf1, hfull, ha, hf3] at hr
                    | freePage n2 =>
                      constructor
                      · simp [insertRec, hp, hres, hnc, hf1, hfull, ha, hf3]
                        decide
                      · intro r hr
                        simp [insertRec, hp, hres, hnc, hf1, hfull, ha, hf3] at hr
                    | internal n2 =>
                      rcases hsp : n2.Split with ⟨mk, lft, rgt⟩
                      constructor
                      · simp [insertRec, hp, hres, hnc, hf1, hfull, ha, hf3, hsp]
                      · intro r hr
                        simp [insertRec, hp, hres, hnc, hf1, hfull, ha, hf3, hsp] at hr
                        rw [← hr]
                        refine pagesLeafOK_ins _ _ _ (pagesLeafOK_ins _ _ _ hOK2 ?_) ?_
                        · intro l3 h3
                          by_cases hcmp : sk < mk <;> simp [hcmp] at h3
                        · intro l3 h3
                          by_cases hcmp : sk < mk <;> simp [hcmp] at h3
                · constructor
                  · simp [insertRec, hp, hres, hnc, hf1, hfull]
                  · intro r hr
                    simp [insertRec, hp, hres, hnc, hf1, hfull] at hr
                    rw [← hr]
                    exact pagesLeafOK_ins _ _ _ hOK1 (fun l3 h3 => Page.noConfusion h3)

/-- C9: `leaf.put` overwrites in place and reports "updated" when the
key is present; when the key is missing and the count is below
capacity it inserts at the search index — keeping the entries in
ascending composite-key order — and reports "inserted"; and under
every tree-level `Insert` on a store whose leaves respect the capacity,
the full-leaf panic branch of `put` is unreachable (the operation never
returns the panic outcome, and it hands back a store whose leaves again
respect the capacity). -/
theorem claim_C9 :
    (∀ (l : LeafNode) (k1 k2 v : Nat), (l.Search k1 k2).2 = true →
      l.Put k1 k2 v =
        some ({ l with entries := setAt (l.Search k1 k2).1 ⟨k1, k2, v⟩ l.entries }, false)) ∧
    (∀ (l : LeafNode) (k1 k2 v : Nat), (l.Search k1 k2).2 = false → l.count < MaxLeafKeys →
      l.Put k1 k2 v =
        some ({ l with entries := insertAt (l.Search k1 k2).1 ⟨k1, k2, v⟩ l.entries,
                       count := l.count + 1 }, true) ∧
      (sortedEntries l.entries →
        sortedEntries (insertAt (l.Search k1 k2).1 ⟨k1, k2, v⟩ l.entries))) ∧
    (∀ (s : TreeState) (rootID k1 k2 v : Nat), stateLeafOK s →
      BPTree.Insert s rootID k1 k2 v ≠ .error panicMsg ∧
      ∀ s2, BPTree.Insert s rootID k1 k2 v = .ok s2 → stateLeafOK s2) := by
  refine ⟨Put_found,
    fun l k1 k2 v hf hc => ⟨Put_not_found l k1 k2 v hf hc, fun hs => ?_⟩,
    fun s rootID k1 k2 v hOK => ?_⟩
  · rw [Search_fst]
    exact sorted_insertAt_search l.entries k1 k2 v hs
      (not_mem_of_search_false l.entries k1 k2 hs (Search_false_at l k1 k2 hf))
  · have hM : MaxLeafKeys = 170 := rfl
    by_cases hroot : getRootPage s rootID = 0
    · rcases ha : allocPage s with ⟨npid, s1⟩
      have hOK1 : pagesLeafOK s1.pages := by
        have := pagesLeafOK_alloc s hOK
        rw [ha] at this
        exact this
      rcases hput : LeafNode.new.Put k1 k2 v with _ | ⟨l, i⟩
      · rw [Put_eq_none_iff] at hput
        have : LeafNode.new.count = 0 := rfl
        omega
      · have hl : l.count ≤ MaxLeafKeys := by
          have := Put_count_le LeafNode.new k1 k2 v l i hput
          have h0 : LeafNode.new.count = 0 := rfl
          omega
        by_cases hrid : rootID ≥ MaxRoots
        · constructor
          · simp [BPTree.Insert, hroot, ha, hput, setRootPageE, hrid]
            decide
          · intro s2 hr
            simp [BPTree.Insert, hroot, ha, hput, setRootPageE, hrid] at hr
        · constructor
          · simp [BPTree.Insert, hroot, ha, hput, setRootPageE, hrid]
          · intro s2 hr
            simp [BPTree.Insert, hroot, ha, hput, setRootPageE, hrid] at hr
            rw [← hr]
            exact pagesLeafOK_ins _ _ _ hOK1 (fun l3 h3 => by cases h3; simpa using hl)
    · rcases hrec : insertRec (s.pageCount + 1) s (getRootPage s rootID) k1 k2 v
        with e | ⟨sk, nc, s1⟩
      · have hmain := insertRec_no_panic (s.pageCount + 1) s (getRootPage s rootID) k1 k2 v hOK
        have hne : e ≠ panicMsg := fun hcon => hmain.1 (by rw [hrec, hcon])
        constructor
        · simpa [BPTree.Insert, hroot, hrec] using hne
        · intro s2 hr
          simp [BPTree.Insert, hroot, hrec] at hr
      · have hmain := insertRec_no_panic (s.pageCount + 1) s (getRootPage s rootID) k1 k2 v hOK
        have hOK1 : pagesLeafOK s1.pages := hmain.2 (sk, nc, s1) hrec
        by_cases hnc : nc = 0
        · subst hnc
          constructor
          · simp [BPTree.Insert, hroot, hrec]
          · intro s2 hr
            simp [BPTree.Insert, hroot, hrec] at hr
            rw [← hr]
            exact hOK1
        · rcases ha : allocPage s1 with ⟨nrid, s2⟩
          have hOK2 : pagesLeafOK s2.pages := by
            have := pagesLeafOK_alloc s1 hOK1
            rw [ha] at this
            exact this
          by_cases hrid : rootID ≥ MaxRoots
          · constructor
            · simp [BPTree.Insert, hroot, hrec, hnc, ha, setRootPageE, hrid]
              decide
            · intro s3 hr
              simp [BPTree.Insert, hroot, hrec, hnc, ha, setRootPageE, hrid] at hr
          · constructor
            · simp [BPTree.Insert, hroot, hrec, hnc, ha, setRootPageE, hrid]
            · intro s3 hr
              simp [BPTree.Insert, hroot, hrec, hnc, ha, setRootPageE, hrid] at hr
              rw [← hr]
              exact pagesLeafOK_ins _ _ _ hOK2 (fun l3 h3 => Page.noConfusion h3)

/-- Witness for C9: an update on a one-entry leaf, an ordered insert
into it, and a panic-free tree-level insert into the fresh state. -/
theorem claim_C9_witness :
    ((⟨1, [⟨10, 0, 100⟩], 0⟩ : LeafNode).Put 10 0 7 =
      some ({ (⟨1, [⟨10, 0, 100⟩], 0⟩ : LeafNode) with
        entries := setAt ((⟨1, [⟨10, 0, 100⟩], 0⟩ : LeafNode).Search 10 0).1
          ⟨10, 0, 7⟩ [⟨10, 0, 100⟩] }, false)) ∧
    ((⟨1, [⟨10, 0, 100⟩], 0⟩ : LeafNode).Put 5 0 50 =
      some ({ (⟨1, [⟨10, 0, 100⟩], 0⟩ : LeafNode) with
        entries := insertAt ((⟨1, [⟨10, 0, 100⟩], 0⟩ : LeafNode).Search 5 0).1
          ⟨5, 0, 50⟩ [⟨10, 0, 100⟩], count := 2 }, true)) ∧
    (sortedEntries (insertAt ((⟨1, [⟨10, 0, 100⟩], 0⟩ : LeafNode).Search 5 0).1
      ⟨5, 0, 50⟩ [⟨10, 0, 100⟩])) ∧
    BPTree.Insert freshState 0 1 2 3 ≠ .error panicMsg := by
  have hOK : stateLeafOK freshState := by
    intro pid l h
    simp [PMap.find?] at h
  refine ⟨claim_C9.1 ⟨1, [⟨10, 0, 100⟩], 0⟩ 10 0 7 (by decide),
    (claim_C9.2.1 ⟨1, [⟨10, 0, 100⟩], 0⟩ 5 0 50 (by decide) (by decide)).1,
    (claim_C9.2.1 ⟨1, [⟨10, 0, 100⟩], 0⟩ 5 0 50 (by decide) (by decide)).2 ?_,
    (claim_C9.2.2 freshState 0 1 2 3 hOK).1⟩
  simp [sortedEntries]

end BPTreeVerif
